import Mathlib

/-!
# Verification of the lintmesh output-normalization and aggregation core

This file is a shallow embedding, in Lean 4, of the pure core of the
`lintmesh` linter aggregator: the canonical issue model (`src/types.ts`),
the summary and sorting logic of the aggregation engine (`src/runner.ts`),
the exit-code policy (`src/utils/exit-code.ts`), the four per-tool output
parsers (`src/linters/eslint.ts`, `oxlint.ts`, `biome.ts`, `tsc.ts`), the
post-parse result filter (`filterByPatterns` in `src/linters/tsc.ts`) and
the per-adapter version probes.

Modelling conventions:
* JavaScript numbers that hold integer data (line/column coordinates, byte
  offsets, exit codes) are embedded as `Int`; list lengths and counts as
  `Nat`.
* `JSON.parse` is embedded by an executable JSON parser (`jsonParse`)
  over a `Json` inductive; a thrown `SyntaxError` becomes `Except.error`.
* JavaScript's in-place `Array.prototype.sort` with a user comparator is
  required by the language specification to be a stable sort; it is
  embedded as `List.mergeSort` with the boolean order derived from the
  source comparator.
* `String.prototype.localeCompare` is embedded as code-point lexicographic
  comparison (`strCmp`), which agrees with the default locale on the ASCII
  path strings this program compares.
* The platform path separator `path.sep` is embedded as `"/"` (POSIX).
-/

set_option maxHeartbeats 1000000
set_option maxRecDepth 10000

namespace Lintmesh

/-! ## Data model (`src/types.ts`) -/

/-- Severity levels normalized across all linters (`types.ts`). -/
inductive Severity where
  | error
  | warning
  | info
deriving DecidableEq, Repr, BEq

/-- Supported linter identifiers (`types.ts`). -/
inductive LinterName where
  | eslint
  | oxlint
  | tsc
  | biome
deriving DecidableEq, Repr, BEq

/-- A single replacement operation for an autofix (`types.ts`). -/
structure Replacement where
  startOffset : Int
  endOffset : Int
  text : String
deriving DecidableEq, Repr, BEq

/-- Autofix information for an issue (`types.ts`). -/
structure Fix where
  replacements : List Replacement
deriving DecidableEq, Repr, BEq

/-- Metadata about a lint rule (`types.ts`). Optional fields are `Option`. -/
structure RuleMeta where
  docsUrl : Option String
  category : Option String
  fixable : Option Bool
deriving DecidableEq, Repr, BEq

/-- A single normalized lint issue (`types.ts`). -/
structure Issue where
  path : String
  line : Int
  column : Int
  endLine : Int
  endColumn : Int
  severity : Severity
  ruleId : String
  message : String
  source : LinterName
  fix : Option Fix
  meta : Option RuleMeta
deriving DecidableEq, Repr, BEq

/-- Execution record for one linter (`types.ts`). -/
structure LinterRun where
  name : LinterName
  version : String
  success : Bool
  error : Option String
  durationMs : Nat
  filesProcessed : Nat
deriving DecidableEq, Repr, BEq

/-- Summary counts of issues found (`types.ts`). -/
structure Summary where
  total : Nat
  errors : Nat
  warnings : Nat
  info : Nat
  fixable : Nat
deriving DecidableEq, Repr, BEq

/-- Complete output structure from lintmesh (`types.ts`, `VibelintOutput`). -/
structure VibelintOutput where
  timestamp : String
  cwd : String
  durationMs : Nat
  linters : List LinterRun
  issues : List Issue
  summary : Summary
deriving DecidableEq, Repr, BEq

/-- Result from running one linter adapter (`types.ts`, `LinterResult`);
the JS `Error` value is embedded by its message string. -/
structure LinterResult where
  success : Bool
  error : Option String
  issues : List Issue
  filesProcessed : Nat
  durationMs : Nat
deriving DecidableEq, Repr, BEq

/-! ## Exit-code policy (`src/utils/exit-code.ts`) -/

/-- `const SEVERITY_ORDER: Severity[] = ['info', 'warning', 'error']`. -/
def SEVERITY_ORDER : List Severity := [.info, .warning, .error]

/-- `computeExitCode` from `src/utils/exit-code.ts`: 2 if all linters
failed, else 1 when some issue's severity index in `SEVERITY_ORDER` is at
or above the threshold's index, else 0. -/
def computeExitCode (output : VibelintOutput) (failOn : Severity)
    (allLintersFailed : Bool) : Int :=
  if allLintersFailed then 2
  else
    let threshold : Nat := SEVERITY_ORDER.indexOf failOn
    if output.issues.any (fun issue => SEVERITY_ORDER.indexOf issue.severity ≥ threshold)
    then 1 else 0

/-- The ordinal rank of a severity in the ordering `info < warning < error`
(spec §4.6), written independently of the list-index computation used by
the source. -/
def sevRank : Severity → Nat
  | .info => 0
  | .warning => 1
  | .error => 2

theorem indexOf_severity_eq_sevRank (s : Severity) :
    SEVERITY_ORDER.indexOf s = sevRank s := by
  cases s <;> rfl

/-! ## Summary computation (`src/runner.ts`, `computeSummary`) -/

/-- `computeSummary` from `src/runner.ts`: counts by filtering the issue
list, `fixable` counts issues whose `fix` field is present
(`i.fix !== undefined`). -/
def computeSummary (issues : List Issue) : Summary :=
  { total := issues.length
    errors := (issues.filter (fun i => i.severity == .error)).length
    warnings := (issues.filter (fun i => i.severity == .warning)).length
    info := (issues.filter (fun i => i.severity == .info)).length
    fixable := (issues.filter (fun i => i.fix.isSome)).length }

/-- An issue carrying a non-empty autofix: `fix` present with at least one
replacement (spec §3 wording for the `fixable` count). -/
def hasNonEmptyFix (i : Issue) : Bool :=
  match i.fix with
  | some f => !f.replacements.isEmpty
  | none => false

/-- C1: For every report, threshold severity, and all-failed flag: if the
all-failed flag is true the result is the tool-error status (2) regardless
of issue content; otherwise the result is the issues-found status (1) if
and only if at least one issue has severity whose ordinal rank in
`info < warning < error` is at or above the threshold's rank, and the
clean status (0) otherwise. -/
theorem exit_code_policy (output : VibelintOutput) (failOn : Severity)
    (allLintersFailed : Bool) :
    computeExitCode output failOn allLintersFailed =
      (if allLintersFailed then 2
       else if output.issues.any (fun i => sevRank i.severity ≥ sevRank failOn)
       then 1 else 0)
    ∧ (output.issues.any (fun i => sevRank i.severity ≥ sevRank failOn) = true
        ↔ ∃ i ∈ output.issues, sevRank i.severity ≥ sevRank failOn) := by
  constructor
  · unfold computeExitCode
    simp only [indexOf_severity_eq_sevRank]
  · simp [List.any_eq_true]

theorem severity_beq_eq_decide (a b : Severity) : (a == b) = decide (a = b) := by
  cases a <;> cases b <;> rfl

theorem severity_filter_counts (issues : List Issue) :
    (issues.filter (fun i => i.severity == .error)).length
      + (issues.filter (fun i => i.severity == .warning)).length
      + (issues.filter (fun i => i.severity == .info)).length
      = issues.length := by
  induction issues with
  | nil => rfl
  | cons i rest ih =>
    simp only [severity_beq_eq_decide] at ih ⊢
    cases h : i.severity <;>
      simp only [List.filter_cons, h] <;>
      simp <;> omega

/-- C2: For every issue list whose present fixes are non-empty (true of
every issue produced by the four parsers: the ESLint parser emits exactly
one replacement, the others never emit a fix), the summary satisfies
`total = length issues`, `errors + warnings + info = total`, and `fixable`
equals the number of issues carrying a non-empty autofix. -/
theorem summary_invariants (issues : List Issue)
    (hfix : ∀ i ∈ issues, ∀ f, i.fix = some f → f.replacements ≠ []) :
    (computeSummary issues).total = issues.length
    ∧ (computeSummary issues).errors + (computeSummary issues).warnings
        + (computeSummary issues).info = (computeSummary issues).total
    ∧ (computeSummary issues).fixable
        = (issues.filter hasNonEmptyFix).length := by
  refine ⟨rfl, severity_filter_counts issues, ?_⟩
  show (issues.filter (fun i => i.fix.isSome)).length = _
  congr 1
  apply List.filter_congr
  intro i hi
  cases hf : i.fix with
  | none => simp [hasNonEmptyFix, hf]
  | some f =>
    have := hfix i hi f hf
    simp [hasNonEmptyFix, hf, List.isEmpty_iff, this, Option.isSome]

/-- Witness for `summary_invariants` at a concrete two-issue list. -/
theorem summary_invariants_witness :
    (computeSummary
        [{ path := "a.ts", line := 1, column := 1, endLine := 1, endColumn := 2,
           severity := .error, ruleId := "eslint/semi", message := "m",
           source := .eslint,
           fix := some ⟨[⟨0, 1, ""⟩]⟩, meta := none },
         { path := "b.ts", line := 2, column := 1, endLine := 2, endColumn := 1,
           severity := .warning, ruleId := "oxlint/r", message := "n",
           source := .oxlint, fix := none, meta := none }]).fixable
      = (List.filter hasNonEmptyFix
          [{ path := "a.ts", line := 1, column := 1, endLine := 1, endColumn := 2,
             severity := .error, ruleId := "eslint/semi", message := "m",
             source := .eslint,
             fix := some ⟨[⟨0, 1, ""⟩]⟩, meta := none },
           { path := "b.ts", line := 2, column := 1, endLine := 2, endColumn := 1,
             severity := .warning, ruleId := "oxlint/r", message := "n",
             source := .oxlint, fix := none, meta := none }]).length :=
  (summary_invariants _ (by intro i hi f hf; fin_cases hi <;> cases hf <;> simp)).2.2

/-! ## Issue sorting (`src/runner.ts`, `sortIssues`)

The source comparator is
`a.path.localeCompare(b.path)` then `a.line - b.line` then
`a.column - b.column`; `localeCompare` is embedded as code-point
lexicographic comparison. JavaScript's `Array.prototype.sort` is required
to be stable, so it is embedded as `List.mergeSort`. -/

/-- Code-point lexicographic comparison of character lists (the embedding
of `String.prototype.localeCompare`, which agrees with it on ASCII). -/
def lexCmp : List Char → List Char → Ordering
  | [], [] => .eq
  | [], _ :: _ => .lt
  | _ :: _, [] => .gt
  | a :: as, b :: bs =>
    if a.toNat < b.toNat then .lt
    else if b.toNat < a.toNat then .gt
    else lexCmp as bs

/-- String comparison used for the primary sort key. -/
def strCmp (a b : String) : Ordering := lexCmp a.data b.data

/-- Three-way comparison of integers (the sign of the JS subtraction
`a - b` used for the line and column keys). -/
def cmpInt (a b : Int) : Ordering :=
  if a < b then .lt else if b < a then .gt else .eq

/-- The comparator of `sortIssues` in `src/runner.ts`: path, then line,
then column. -/
def cmpIssue (a b : Issue) : Ordering :=
  (strCmp a.path b.path).then ((cmpInt a.line b.line).then (cmpInt a.column b.column))

/-- The non-strict order induced by the comparator (`compare(a,b) <= 0`). -/
def issueLE (a b : Issue) : Bool :=
  match cmpIssue a b with
  | .gt => false
  | _ => true

/-- `sortIssues` from `src/runner.ts`: stable sort by the comparator. -/
def sortIssues (issues : List Issue) : List Issue :=
  issues.mergeSort issueLE

theorem char_toNat_inj {a b : Char} (h : a.toNat = b.toNat) : a = b := by
  have := congrArg Char.ofNat h
  simpa using this

theorem lexCmp_eq_iff : ∀ x y : List Char, lexCmp x y = .eq ↔ x = y := by
  intro x
  induction x with
  | nil => intro y; cases y <;> simp [lexCmp]
  | cons a as ih =>
    intro y
    cases y with
    | nil => simp [lexCmp]
    | cons b bs =>
      by_cases h1 : a.toNat < b.toNat
      · simp only [lexCmp, if_pos h1]
        constructor
        · intro h; cases h
        · rintro ⟨rfl, rfl⟩; omega
      · by_cases h2 : b.toNat < a.toNat
        · simp only [lexCmp, if_neg h1, if_pos h2]
          constructor
          · intro h; cases h
          · rintro ⟨rfl, rfl⟩; omega
        · have hab : a = b := char_toNat_inj (by omega)
          subst hab
          simp only [lexCmp, if_neg h1, if_neg h2, ih bs]
          simp

theorem lexCmp_swap : ∀ x y : List Char, lexCmp y x = (lexCmp x y).swap := by
  intro x
  induction x with
  | nil => intro y; cases y <;> rfl
  | cons a as ih =>
    intro y
    cases y with
    | nil => rfl
    | cons b bs =>
      by_cases h1 : a.toNat < b.toNat
      · have h2 : ¬ b.toNat < a.toNat := by omega
        simp [lexCmp, h1, h2, Ordering.swap]
      · by_cases h2 : b.toNat < a.toNat
        · simp [lexCmp, h1, h2, Ordering.swap]
        · simp [lexCmp, h1, h2, ih bs]

theorem lexCmp_lt_trans : ∀ x y z : List Char,
    lexCmp x y = .lt → lexCmp y z = .lt → lexCmp x z = .lt := by
  intro x
  induction x with
  | nil =>
    intro y z hxy hyz
    cases y with
    | nil => exact hyz
    | cons b bs =>
      cases z with
      | nil => simp [lexCmp] at hyz
      | cons c cs => rfl
  | cons a as ih =>
    intro y z hxy hyz
    cases y with
    | nil => simp [lexCmp] at hxy
    | cons b bs =>
      cases z with
      | nil => simp [lexCmp] at hyz
      | cons c cs =>
        simp only [lexCmp] at hxy hyz ⊢
        by_cases hab1 : a.toNat < b.toNat <;> by_cases hbc1 : b.toNat < c.toNat
        · simp [show a.toNat < c.toNat by omega]
        · by_cases hbc2 : c.toNat < b.toNat
          · simp [hbc1, hbc2] at hyz
          · have : b.toNat = c.toNat := by omega
            simp [show a.toNat < c.toNat by omega]
        · by_cases hab2 : b.toNat < a.toNat
          · simp [hab1, hab2] at hxy
          · have : a.toNat = b.toNat := by omega
            simp [show a.toNat < c.toNat by omega]
        · by_cases hab2 : b.toNat < a.toNat
          · simp [hab1, hab2] at hxy
          · by_cases hbc2 : c.toNat < b.toNat
            · simp [hbc1, hbc2] at hyz
            · have hac1 : ¬ a.toNat < c.toNat := by omega
              have hac2 : ¬ c.toNat < a.toNat := by omega
              simp only [hab1, hab2, hbc1, hbc2, hac1, hac2, if_neg, if_false] at hxy hyz ⊢
              exact ih bs cs hxy hyz

theorem strCmp_eq_iff (a b : String) : strCmp a b = .eq ↔ a = b := by
  unfold strCmp
  rw [lexCmp_eq_iff]
  constructor
  · intro h; cases a; cases b; cases h; rfl
  · intro h; rw [h]

theorem strCmp_swap (a b : String) : strCmp b a = (strCmp a b).swap :=
  lexCmp_swap a.data b.data

theorem strCmp_lt_trans {a b c : String} :
    strCmp a b = .lt → strCmp b c = .lt → strCmp a c = .lt :=
  lexCmp_lt_trans a.data b.data c.data

theorem cmpInt_eq_iff (a b : Int) : cmpInt a b = .eq ↔ a = b := by
  unfold cmpInt
  split <;> rename_i h
  · constructor
    · intro hc; cases hc
    · intro; omega
  · split <;> rename_i h2
    · constructor
      · intro hc; cases hc
      · intro; omega
    · simp; omega

theorem cmpInt_swap (a b : Int) : cmpInt b a = (cmpInt a b).swap := by
  unfold cmpInt
  rcases lt_trichotomy a b with h | h | h
  · rw [if_neg (by omega), if_pos h, if_pos h]; rfl
  · subst h
    rw [if_neg (by omega), if_neg (by omega)]
    rfl
  · rw [if_pos h, if_neg (by omega), if_pos h]; rfl

theorem cmpInt_lt_trans {a b c : Int} :
    cmpInt a b = .lt → cmpInt b c = .lt → cmpInt a c = .lt := by
  unfold cmpInt
  intro h1 h2
  by_cases hab : a < b
  · by_cases hbc : b < c
    · rw [if_pos (by omega)]
    · rw [if_neg hbc] at h2
      split at h2 <;> cases h2
  · rw [if_neg hab] at h1
    split at h1 <;> cases h1

theorem cmpInt_lt_iff (a b : Int) : cmpInt a b = .lt ↔ a < b := by
  unfold cmpInt
  split <;> rename_i h
  · simp [h]
  · split <;> simp [h]

theorem then_eq_lt (x y : Ordering) : x.then y = .lt ↔ x = .lt ∨ (x = .eq ∧ y = .lt) := by
  cases x <;> simp [Ordering.then]

theorem then_eq_eq (x y : Ordering) : x.then y = .eq ↔ x = .eq ∧ y = .eq := by
  cases x <;> simp [Ordering.then]

theorem cmpIssue_lt_iff (a b : Issue) :
    cmpIssue a b = .lt ↔
      (strCmp a.path b.path = .lt ∨ (a.path = b.path ∧
        (a.line < b.line ∨ (a.line = b.line ∧ a.column < b.column)))) := by
  unfold cmpIssue
  rw [then_eq_lt, then_eq_lt, strCmp_eq_iff, cmpInt_lt_iff, cmpInt_eq_iff, cmpInt_lt_iff]

theorem cmpIssue_eq_iff (a b : Issue) :
    cmpIssue a b = .eq ↔ (a.path = b.path ∧ a.line = b.line ∧ a.column = b.column) := by
  unfold cmpIssue
  rw [then_eq_eq, then_eq_eq, strCmp_eq_iff, cmpInt_eq_iff, cmpInt_eq_iff]

/-- Characterization of the sort order: primary key path (lexicographic
string comparison), secondary key line ascending, tertiary key column
ascending. -/
theorem issueLE_char (a b : Issue) :
    issueLE a b = true ↔
      (strCmp a.path b.path = .lt ∨ (a.path = b.path ∧
        (a.line < b.line ∨ (a.line = b.line ∧ a.column ≤ b.column)))) := by
  have hlt := cmpIssue_lt_iff a b
  have heq := cmpIssue_eq_iff a b
  unfold issueLE
  constructor
  · intro h
    cases hc : cmpIssue a b with
    | lt =>
      rcases hlt.mp hc with h1 | ⟨h1, h2⟩
      · exact Or.inl h1
      · exact Or.inr ⟨h1, by omega⟩
    | eq =>
      obtain ⟨h1, h2, h3⟩ := heq.mp hc
      exact Or.inr ⟨h1, Or.inr ⟨h2, by omega⟩⟩
    | gt => rw [hc] at h; cases h
  · intro h
    rcases h with h1 | ⟨h1, h2 | ⟨h2, h3⟩⟩
    · rw [hlt.mpr (Or.inl h1)]
    · rw [hlt.mpr (Or.inr ⟨h1, Or.inl h2⟩)]
    · rcases lt_or_eq_of_le h3 with h4 | h4
      · rw [hlt.mpr (Or.inr ⟨h1, Or.inr ⟨h2, h4⟩⟩)]
      · rw [heq.mpr ⟨h1, h2, h4⟩]

theorem issueLE_trans (a b c : Issue) :
    issueLE a b → issueLE b c → issueLE a c := by
  intro hab hbc
  rw [issueLE_char] at *
  rcases hab with h1 | ⟨e1, h1⟩ <;> rcases hbc with h2 | ⟨e2, h2⟩
  · exact Or.inl (strCmp_lt_trans h1 h2)
  · rw [← e2]; exact Or.inl h1
  · rw [e1]; exact Or.inl h2
  · exact Or.inr ⟨e1.trans e2, by omega⟩

theorem issueLE_total (a b : Issue) : issueLE a b || issueLE b a := by
  rw [Bool.or_eq_true, issueLE_char, issueLE_char]
  by_cases hp : a.path = b.path
  · rcases Int.lt_trichotomy a.line b.line with h | h | h
    · exact Or.inl (Or.inr ⟨hp, Or.inl h⟩)
    · rcases le_total a.column b.column with hc | hc
      · exact Or.inl (Or.inr ⟨hp, Or.inr ⟨h, hc⟩⟩)
      · exact Or.inr (Or.inr ⟨hp.symm, Or.inr ⟨h.symm, hc⟩⟩)
    · exact Or.inr (Or.inr ⟨hp.symm, Or.inl h⟩)
  · cases hs : strCmp a.path b.path with
    | lt => exact Or.inl (Or.inl rfl)
    | eq => exact absurd ((strCmp_eq_iff _ _).mp hs) hp
    | gt =>
      refine Or.inr (Or.inl ?_)
      rw [strCmp_swap, hs]
      rfl

/-- Same (path, line, column) sort key, as a boolean predicate. -/
def sameKeyB (i : Issue) (p : String) (li co : Int) : Bool :=
  i.path == p && i.line == li && i.column == co

theorem sameKeyB_eq_true {i : Issue} {p : String} {li co : Int}
    (h : sameKeyB i p li co = true) :
    i.path = p ∧ i.line = li ∧ i.column = co := by
  simpa [sameKeyB, Bool.and_eq_true, beq_iff_eq, and_assoc] using h

/-- C3: the aggregation's sort returns a permutation of its input that is
sorted by the total order whose primary key is the file path
(lexicographic string comparison), secondary key the line, tertiary key
the column; it is stable (issues with identical path, line and column keep
their relative input order, stated as: filtering any fixed key commutes
with sorting) and idempotent (sorting a sorted list is the identity). -/
theorem sortIssues_spec (l : List Issue) :
    List.Perm (sortIssues l) l
    ∧ List.Pairwise (fun a b => issueLE a b = true) (sortIssues l)
    ∧ (∀ a b : Issue, issueLE a b = true ↔
        (strCmp a.path b.path = .lt ∨ (a.path = b.path ∧
          (a.line < b.line ∨ (a.line = b.line ∧ a.column ≤ b.column)))))
    ∧ (∀ (p : String) (li co : Int),
        (sortIssues l).filter (fun i => sameKeyB i p li co)
          = l.filter (fun i => sameKeyB i p li co))
    ∧ sortIssues (sortIssues l) = sortIssues l := by
  refine ⟨List.mergeSort_perm l issueLE,
    List.sorted_mergeSort issueLE_trans issueLE_total l,
    issueLE_char, ?_, ?_⟩
  · intro p li co
    have hsub : List.Sublist (l.filter (fun i => sameKeyB i p li co)) l := List.filter_sublist l
    have hpw : (l.filter (fun i => sameKeyB i p li co)).Pairwise
        (fun a b => issueLE a b = true) := by
      apply List.pairwise_of_forall_mem_list
      intro a ha b hb
      obtain ⟨ka1, ka2, ka3⟩ := sameKeyB_eq_true (List.mem_filter.mp ha).2
      obtain ⟨kb1, kb2, kb3⟩ := sameKeyB_eq_true (List.mem_filter.mp hb).2
      rw [issueLE_char]
      exact Or.inr ⟨ka1.trans kb1.symm, Or.inr ⟨ka2.trans kb2.symm, by omega⟩⟩
    have hsubsort : List.Sublist (l.filter (fun i => sameKeyB i p li co)) (sortIssues l) :=
      List.sublist_mergeSort issueLE_trans issueLE_total hpw hsub
    have hself : (l.filter (fun i => sameKeyB i p li co)).filter
        (fun i => sameKeyB i p li co) = l.filter (fun i => sameKeyB i p li co) :=
      List.filter_eq_self.mpr (fun a ha => List.mem_filter.mp ha |>.2)
    have h3 : List.Sublist (l.filter (fun i => sameKeyB i p li co))
        ((sortIssues l).filter (fun i => sameKeyB i p li co)) := by
      have := List.Sublist.filter (fun i => sameKeyB i p li co) hsubsort
      rwa [hself] at this
    have hlen : ((sortIssues l).filter (fun i => sameKeyB i p li co)).length
        = (l.filter (fun i => sameKeyB i p li co)).length := by
      rw [← List.countP_eq_length_filter, ← List.countP_eq_length_filter]
      exact (List.mergeSort_perm l issueLE).countP_eq _
    exact (h3.eq_of_length hlen.symm).symm
  · exact List.mergeSort_of_sorted
      (List.sorted_mergeSort issueLE_trans issueLE_total l)

/-! ## JavaScript string trimming and JSON parsing

The parsers guard on `stdout.trim()` and then call `JSON.parse`. `trim`
is embedded over the ECMAScript white-space set; `JSON.parse` by an
executable recursive-descent parser of the JSON grammar, with a thrown
`SyntaxError` embedded as `Option.none` / `Except.error`. -/

/-- ECMAScript white space and line terminators (the set trimmed by
`String.prototype.trim`). -/
def jsWsChar (c : Char) : Bool :=
  let n := c.toNat
  n = 9 || n = 10 || n = 11 || n = 12 || n = 13 || n = 32 || n = 0xA0 ||
  n = 0x1680 || (0x2000 ≤ n && n ≤ 0x200A) || n = 0x2028 || n = 0x2029 ||
  n = 0x202F || n = 0x205F || n = 0x3000 || n = 0xFEFF

/-- `String.prototype.trim`. -/
def jsTrim (s : String) : String :=
  String.mk (((s.data.dropWhile jsWsChar).reverse.dropWhile jsWsChar).reverse)

theorem jsTrim_of_all_ws {s : String} (h : ∀ c ∈ s.data, jsWsChar c) :
    jsTrim s = "" := by
  unfold jsTrim
  rw [List.dropWhile_eq_nil_iff.mpr (fun c hc => h c hc)]
  rfl

/-- A JSON number literal: sign, mantissa (integer and fraction digits run
together), number of fraction digits, decimal exponent. The denoted value
is `±mant · 10^(exp − fracLen)`. -/
structure JNum where
  neg : Bool
  mant : Nat
  fracLen : Nat
  exp : Int

/-- JSON values (the result of `JSON.parse`). Objects keep their fields in
source order; duplicate keys are resolved to the last occurrence at lookup
time, as JavaScript object literal evaluation does. -/
inductive Json where
  | null
  | bool (b : Bool)
  | num (n : JNum)
  | str (s : String)
  | arr (elems : List Json)
  | obj (fields : List (String × Json))

/-- JSON (RFC 8259) insignificant whitespace. -/
def jsonWsChar (c : Char) : Bool :=
  c = ' ' || c = '\t' || c = '\n' || c = '\r'

def skipWs (l : List Char) : List Char := l.dropWhile jsonWsChar

def digitVal (c : Char) : Nat := c.toNat - '0'.toNat

def digitsToNat (ds : List Char) : Nat :=
  ds.foldl (fun acc c => acc * 10 + digitVal c) 0

def parseHexDigit (c : Char) : Option Nat :=
  if c.isDigit then some (digitVal c)
  else if 'a' ≤ c ∧ c ≤ 'f' then some (c.toNat - 'a'.toNat + 10)
  else if 'A' ≤ c ∧ c ≤ 'F' then some (c.toNat - 'A'.toNat + 10)
  else none

/-- Single-character escape sequences of JSON strings. -/
def escChar : Char → Option Char
  | '"' => some '"'
  | '\\' => some '\\'
  | '/' => some '/'
  | 'b' => some (Char.ofNat 8)
  | 'f' => some (Char.ofNat 12)
  | 'n' => some '\n'
  | 'r' => some '\r'
  | 't' => some '\t'
  | _ => none

/-- Parse the body of a JSON string after the opening quote, returning the
decoded characters and the input after the closing quote. Unterminated
strings, invalid escapes and raw control characters are syntax errors.
`\uXXXX` escapes are decoded through `Char.ofNat` (lone surrogates map to
the null scalar). -/
def parseStrBody : List Char → Option (List Char × List Char)
  | [] => none
  | '"' :: rest => some ([], rest)
  | '\\' :: rest =>
    match rest with
    | 'u' :: h1 :: h2 :: h3 :: h4 :: rest2 =>
      match parseHexDigit h1, parseHexDigit h2, parseHexDigit h3, parseHexDigit h4 with
      | some a, some b, some c, some d =>
        match parseStrBody rest2 with
        | some (cs, r) => some (Char.ofNat (((a * 16 + b) * 16 + c) * 16 + d) :: cs, r)
        | none => none
      | _, _, _, _ => none
    | c :: rest2 =>
      match escChar c with
      | some e =>
        match parseStrBody rest2 with
        | some (cs, r) => some (e :: cs, r)
        | none => none
      | none => none
    | [] => none
  | c :: rest =>
    if c.toNat < 32 then none
    else
      match parseStrBody rest with
      | some (cs, r) => some (c :: cs, r)
      | none => none

def takeDigits (l : List Char) : List Char × List Char :=
  (l.takeWhile Char.isDigit, l.dropWhile Char.isDigit)

/-- Parse the optional exponent part of a JSON number and build the token. -/
def parseExpPart (neg : Bool) (mant fracLen : Nat) (l : List Char) :
    Option (JNum × List Char) :=
  match l with
  | 'e' :: r | 'E' :: r =>
    let (esign, r1) : Int × List Char :=
      match r with
      | '+' :: r2 => (1, r2)
      | '-' :: r2 => (-1, r2)
      | _ => (1, r)
    let (eds, r2) := takeDigits r1
    if eds = [] then none
    else some ({ neg, mant, fracLen, exp := esign * (digitsToNat eds : Int) }, r2)
  | _ => some ({ neg, mant, fracLen, exp := 0 }, l)

/-- Parse a JSON number literal (`-?(0|[1-9][0-9]*)(\.[0-9]+)?([eE][+-]?[0-9]+)?`). -/
def parseNum (l : List Char) : Option (JNum × List Char) :=
  let (neg, l1) : Bool × List Char :=
    match l with
    | '-' :: r => (true, r)
    | _ => (false, l)
  match l1 with
  | [] => none
  | c :: _ =>
    if !c.isDigit then none
    else
      let (ids, l2) := takeDigits l1
      if ids.length > 1 ∧ ids.head? = some '0' then none
      else
        match l2 with
        | '.' :: l3 =>
          let (fds, l4) := takeDigits l3
          if fds = [] then none
          else parseExpPart neg (digitsToNat (ids ++ fds)) fds.length l4
        | _ => parseExpPart neg (digitsToNat ids) 0 l2

mutual

/-- Recursive-descent parser for one JSON value (fuel-indexed; the fuel
used by `jsonParse` always suffices, since every two successive recursive
calls consume at least one input character). -/
def parseVal : Nat → List Char → Option (Json × List Char)
  | 0, _ => none
  | fuel + 1, l =>
    match skipWs l with
    | 'n' :: 'u' :: 'l' :: 'l' :: r => some (.null, r)
    | 't' :: 'r' :: 'u' :: 'e' :: r => some (.bool true, r)
    | 'f' :: 'a' :: 'l' :: 's' :: 'e' :: r => some (.bool false, r)
    | '"' :: r =>
      match parseStrBody r with
      | some (cs, r2) => some (.str (String.mk cs), r2)
      | none => none
    | '[' :: r =>
      (match skipWs r with
       | ']' :: r2 => some (.arr [], r2)
       | _ =>
         match parseElems fuel r with
         | some (es, r2) => some (.arr es, r2)
         | none => none)
    | '{' :: r =>
      (match skipWs r with
       | '}' :: r2 => some (.obj [], r2)
       | _ =>
         match parseMembers fuel r with
         | some (fs, r2) => some (.obj fs, r2)
         | none => none)
    | c :: r =>
      if c = '-' ∨ c.isDigit then
        match parseNum (c :: r) with
        | some (n, r2) => some (.num n, r2)
        | none => none
      else none
    | [] => none

/-- Parse the comma-separated elements of a non-empty JSON array, up to
and including the closing bracket. -/
def parseElems : Nat → List Char → Option (List Json × List Char)
  | 0, _ => none
  | fuel + 1, l =>
    match parseVal fuel l with
    | none => none
    | some (j, r) =>
      match skipWs r with
      | ',' :: r2 =>
        (match parseElems fuel r2 with
         | some (es, r3) => some (j :: es, r3)
         | none => none)
      | ']' :: r2 => some ([j], r2)
      | _ => none

/-- Parse the members of a non-empty JSON object, up to and including the
closing brace. -/
def parseMembers : Nat → List Char → Option (List (String × Json) × List Char)
  | 0, _ => none
  | fuel + 1, l =>
    match skipWs l with
    | '"' :: r =>
      (match parseStrBody r with
       | some (key, r2) =>
         (match skipWs r2 with
          | ':' :: r3 =>
            (match parseVal fuel r3 with
             | some (v, r4) =>
               (match skipWs r4 with
                | ',' :: r5 =>
                  (match parseMembers fuel r5 with
                   | some (fs, r6) => some ((String.mk key, v) :: fs, r6)
                   | none => none)
                | '}' :: r5 => some ([(String.mk key, v)], r5)
                | _ => none)
             | none => none)
          | _ => none)
       | none => none)
    | _ => none

end

/-- The embedding of `JSON.parse`: parse one JSON value surrounded by
optional whitespace; anything else is a `SyntaxError`. -/
def jsonParse (s : String) : Except String Json :=
  match parseVal (2 * s.data.length + 4) s.data with
  | some (j, rest) =>
    if skipWs rest = [] then .ok j
    else .error "SyntaxError: unexpected non-whitespace character after JSON data"
  | none => .error "SyntaxError: unexpected token in JSON"

/-! ## Path handling (POSIX model of `node:path`)

`path.sep` is `"/"`. `path.relative(cwd, p)` is modelled for the cases the
program produces: `p` equal to `cwd`, `p` under `cwd`, or unrelated (then
returned unchanged; `..`-traversal output is outside the modelled scope).
`path.resolve(cwd, p)` is modelled as plain joining for relative `p`
(no `..`/`.` segment normalization). -/

/-- `String.prototype.startsWith`, embedded over character lists. -/
def strStartsWith (s pre : String) : Bool := pre.data.isPrefixOf s.data

/-- `String.prototype.slice`-style character drop (for `path.relative`). -/
def strDrop (s : String) (n : Nat) : String := String.mk (s.data.drop n)

def pathIsAbs (p : String) : Bool := strStartsWith p "/"

def resolvePath (cwd p : String) : String :=
  if pathIsAbs p then p else cwd ++ "/" ++ p

def relPath (cwd p : String) : String :=
  if p = cwd then ""
  else if strStartsWith p (cwd ++ "/") then strDrop p (cwd.length + 1)
  else p

/-! ## JSON field access and decoding

The TypeScript adapters cast `JSON.parse` results to their interface types
without validation; ill-typed fields either make the traversal throw a
`TypeError` (modelled as decoder failure, which the adapters surface as a
failed run exactly like the thrown exception) or are silently woven into
the issue by JavaScript coercion. The decoders below require every field
the code reads to be well-typed; inputs that would be carried through by
coercion (e.g. a fractional `line` number or a numeric `message`) are
outside the modelled scope. Every theorem below either quantifies over
decoder-successful inputs or evaluates concrete well-typed inputs on which
the embedding agrees with the JavaScript semantics. -/

/-- Object field lookup; for duplicate keys JavaScript object literals
keep the last occurrence. -/
def getField (j : Json) (name : String) : Option Json :=
  match j with
  | .obj fs => ((fs.reverse).find? (fun p => p.1 == name)).map (·.2)
  | _ => none

def asString : Json → Option String
  | .str s => some s
  | _ => none

def asArr : Json → Option (List Json)
  | .arr es => some es
  | _ => none

/-- The integer denoted by a JSON number token, when it is integral. -/
def jnumToInt (n : JNum) : Option Int :=
  let e : Int := n.exp - n.fracLen
  let v? : Option Int :=
    if 0 ≤ e then some ((n.mant : Int) * 10 ^ e.toNat)
    else if (10 : Int) ^ (-e).toNat ∣ (n.mant : Int) then
      some ((n.mant : Int) / 10 ^ (-e).toNat)
    else none
  v?.map (fun v => if n.neg then -v else v)

def asInt : Json → Option Int
  | .num n => jnumToInt n
  | _ => none

/-! ## ESLint adapter (`src/linters/eslint.ts`) -/

/-- `ESLintMessage.fix` / a suggestion's `fix`: byte range plus text. -/
structure ESLintFix where
  rangeStart : Int
  rangeEnd : Int
  text : String

/-- The fields of `ESLintMessage` that `parseOutput` reads. `suggestions`
is kept as raw JSON because the code only dereferences its first element
(and only when no primary fix exists). -/
structure ESLintMessage where
  ruleId : Option String
  severity : Int
  message : String
  line : Int
  column : Int
  endLine : Option Int
  endColumn : Option Int
  fix : Option ESLintFix
  suggestions : List Json

/-- The fields of `ESLintFileResult` that `parseOutput` reads. -/
structure ESLintFileResult where
  filePath : String
  messages : List ESLintMessage

def decodeESLintFix (j : Json) : Option ESLintFix := do
  let rj ← getField j "range"
  let es ← asArr rj
  match es with
  | [a, b] => do
    let a' ← asInt a
    let b' ← asInt b
    let t ← getField j "text" >>= asString
    pure { rangeStart := a', rangeEnd := b', text := t }
  | _ => none

def optionalInt (j : Json) (name : String) : Option (Option Int) :=
  match getField j name with
  | none => some none
  | some .null => some none
  | some v => (asInt v).map some

def decodeESLintMessage (j : Json) : Option ESLintMessage := do
  let rid : Option String ←
    match getField j "ruleId" with
    | none => some none
    | some .null => some none
    | some (.str s) => some (some s)
    | some _ => none
  let sev ← getField j "severity" >>= asInt
  let msgText ← getField j "message" >>= asString
  let line ← getField j "line" >>= asInt
  let col ← getField j "column" >>= asInt
  let endLine ← optionalInt j "endLine"
  let endColumn ← optionalInt j "endColumn"
  let fix : Option ESLintFix ←
    match getField j "fix" with
    | none => some none
    | some .null => some none
    | some f => (decodeESLintFix f).map some
  let sugg : List Json ←
    match getField j "suggestions" with
    | none => some []
    | some .null => some []
    | some (.arr es) => some es
    | some _ => none
  pure { ruleId := rid, severity := sev, message := msgText, line := line,
         column := col, endLine := endLine, endColumn := endColumn,
         fix := fix, suggestions := sugg }

def decodeESLintResults (j : Json) : Option (List ESLintFileResult) := do
  let files ← asArr j
  files.mapM (fun fj => do
    let fp ← getField fj "filePath" >>= asString
    let ms ← getField fj "messages" >>= asArr
    let msgs ← ms.mapM decodeESLintMessage
    pure { filePath := fp, messages := msgs })

/-- The autofix attached to one ESLint message: the primary fix, or else
the first suggestion's fix, as a single byte-range replacement. Fails only
where the JavaScript would throw while dereferencing a malformed
suggestion. -/
def eslintFixOf (m : ESLintMessage) : Option (Option Fix) :=
  match m.fix with
  | some f => some (some ⟨[⟨f.rangeStart, f.rangeEnd, f.text⟩]⟩)
  | none =>
    match m.suggestions with
    | [] => some none
    | s0 :: _ => do
      let fj ← getField s0 "fix"
      let f ← decodeESLintFix fj
      pure (some ⟨[⟨f.rangeStart, f.rangeEnd, f.text⟩]⟩)

/-- Build one Issue from one ESLint message, mirroring the loop body of
`ESLintAdapter.parseOutput`: severity 2 is `error`, anything else
`warning`; a missing rule id becomes the `parse-error` sentinel; a missing
end position defaults to the start. -/
def eslintIssueOfMsg (cwd filePath : String) (m : ESLintMessage) : Option Issue :=
  (eslintFixOf m).map (fun fix =>
    { path := relPath cwd filePath
      line := m.line
      column := m.column
      endLine := m.endLine.getD m.line
      endColumn := m.endColumn.getD m.column
      severity := if m.severity = 2 then .error else .warning
      ruleId := "eslint/" ++ m.ruleId.getD "parse-error"
      message := m.message
      source := .eslint
      fix := fix
      meta := none })

def eslintIssuesFromJson (cwd : String) (j : Json) : Except String (List Issue) :=
  match decodeESLintResults j with
  | none => .error "TypeError while traversing ESLint output"
  | some results =>
    match results.mapM (fun fr => fr.messages.mapM (eslintIssueOfMsg cwd fr.filePath)) with
    | none => .error "TypeError while traversing ESLint output"
    | some issueLists => .ok issueLists.flatten

/-- `ESLintAdapter.parseOutput`: blank output is zero issues; otherwise
`JSON.parse` (a `SyntaxError` propagates as the malformed-output failure),
then one Issue per message of each file entry. -/
def eslintParseOutput (stdout cwd : String) : Except String (List Issue) :=
  if jsTrim stdout = "" then .ok []
  else
    match jsonParse stdout with
    | .error e => .error e
    | .ok j => eslintIssuesFromJson cwd j

/-! ## Oxlint adapter (`src/linters/oxlint.ts`) -/

/-- The span fields of an oxlint label that `parseOutput` reads. -/
structure OxlintLabel where
  line : Int
  column : Int
  length : Int

/-- The fields of an oxlint diagnostic that `parseOutput` reads. -/
structure OxlintDiagnostic where
  message : String
  code : String
  severity : Option String
  filename : String
  labels : List OxlintLabel
  url : Option String

def optionalStr (j : Json) (name : String) : Option (Option String) :=
  match getField j name with
  | none => some none
  | some .null => some none
  | some v => (asString v).map some

def decodeOxlintOutput (j : Json) : Option (List OxlintDiagnostic) := do
  let ds ← getField j "diagnostics" >>= asArr
  ds.mapM (fun dj => do
    let msg ← getField dj "message" >>= asString
    let code ← getField dj "code" >>= asString
    let sev ← optionalStr dj "severity"
    let fn ← getField dj "filename" >>= asString
    let ljs ← getField dj "labels" >>= asArr
    let labels ← ljs.mapM (fun lj => do
      let sp ← getField lj "span"
      let line ← getField sp "line" >>= asInt
      let col ← getField sp "column" >>= asInt
      let len ← getField sp "length" >>= asInt
      pure (OxlintLabel.mk line col len))
    let url ← optionalStr dj "url"
    pure { message := msg, code := code, severity := sev, filename := fn,
           labels := labels, url := url })

/-- The per-diagnostic loop of `OxlintAdapter.parseOutput` over parsed
JSON. -/
def oxlintIssuesFromJson (cwd : String) (j : Json) : Except String (List Issue) :=
  match decodeOxlintOutput j with
  | none => .error "TypeError while traversing Oxlint output"
  | some diags =>
    .ok (diags.filterMap (fun d =>
          match d.labels with
          | [] => none
          | label :: _ =>
            let filePath := if pathIsAbs d.filename then d.filename
                            else resolvePath cwd d.filename
            some { path := relPath cwd filePath
                   line := label.line
                   column := label.column
                   endLine := label.line
                   endColumn := label.column + label.length
                   severity := if d.severity = some "error" then .error else .warning
                   ruleId := "oxlint/" ++ d.code
                   message := d.message
                   source := .oxlint
                   fix := none
                   meta := some { docsUrl := d.url, category := none, fixable := none } }))

/-- `OxlintAdapter.parseOutput`: blank output is zero issues; otherwise
`JSON.parse` then one Issue per diagnostic that has at least one label
(label-less diagnostics are skipped); only `"error"` maps to `error`
severity, everything else to `warning`; the end column is the start column
plus the label length on the same line. -/
def oxlintParseOutput (stdout cwd : String) : Except String (List Issue) :=
  if jsTrim stdout = "" then .ok []
  else
    match jsonParse stdout with
    | .error e => .error e
    | .ok j => oxlintIssuesFromJson cwd j

/-! ## Biome adapter (`src/linters/biome.ts`) -/

/-- The location fields of a Biome diagnostic; all are optional because
the code guards them with `!loc?.sourceCode || !loc.span` before use
(an empty `sourceCode` string is falsy and also skips). -/
structure BiomeLocation where
  pathFile : Option String
  span : Option (Int × Int)
  sourceCode : Option String

/-- The fields of a Biome diagnostic that `parseOutput` reads. `category`
and `severity` are kept optional: the code touches them only for
diagnostics that pass the location guard. -/
structure BiomeDiagnostic where
  category : Option String
  severity : Option String
  description : String
  location : Option BiomeLocation
  tags : Option (List String)

/-- The walk of `offsetToLineColumn`: scan characters, counting lines and
columns, until the running offset reaches the target. -/
def offsetWalk (offset : Int) : List Char → Int → Int → Int → Int × Int
  | [], _, line, col => (line, col)
  | c :: cs, cur, line, col =>
    if cur ≥ offset then (line, col)
    else if c = '\n' then offsetWalk offset cs (cur + 1) (line + 1) 1
    else offsetWalk offset cs (cur + 1) line (col + 1)

/-- `offsetToLineColumn` from `src/linters/biome.ts`: convert a byte
offset into a 1-indexed line/column pair by a linear scan of the embedded
source text. -/
def offsetToLineColumn (sourceCode : String) (offset : Int) : Int × Int :=
  offsetWalk offset sourceCode.data 0 1 1

/-- The camelCase-to-kebab-case rewriting
`replace(/([a-z])([A-Z])/g, '$1-$2')` used for Biome documentation URLs. -/
def kebabSplit : List Char → List Char
  | a :: b :: rest =>
    if a.isLower ∧ b.isUpper then a :: '-' :: kebabSplit (b :: rest)
    else a :: kebabSplit (b :: rest)
  | l => l

def biomeDocsUrl (ruleShort : String) : String :=
  "https://biomejs.dev/linter/rules/"
    ++ String.mk ((kebabSplit ruleShort.data).map Char.toLower)

def decodeBiomeLocation (j : Json) : BiomeLocation :=
  { pathFile :=
      match getField j "path" with
      | some pj => (getField pj "file").bind asString
      | none => none
    span :=
      match getField j "span" with
      | some (.arr (a :: b :: _)) =>
        match asInt a, asInt b with
        | some a', some b' => some (a', b')
        | _, _ => none
      | _ => none
    sourceCode := (getField j "sourceCode").bind asString }

def decodeBiomeOutput (j : Json) : Option (List BiomeDiagnostic) := do
  let ds ← getField j "diagnostics" >>= asArr
  ds.mapM (fun dj => do
    let desc ← getField dj "description" >>= asString
    let cat ← optionalStr dj "category"
    let sev ← optionalStr dj "severity"
    let loc : Option BiomeLocation :=
      match getField dj "location" with
      | none => none
      | some .null => none
      | some lj => some (decodeBiomeLocation lj)
    let tags : Option (List String) ←
      match getField dj "tags" with
      | none => some none
      | some .null => some none
      | some (.arr ts) => (ts.mapM asString).map some
      | some _ => none
    pure { category := cat, severity := sev, description := desc,
           location := loc, tags := tags })

/-- One iteration of the `BiomeAdapter.parseOutput` loop: skip a
diagnostic without usable location data (`.ok none`), convert the two byte
offsets to line/column pairs independently, take the final slash-delimited
segment of the category as the rule id, synthesize the documentation URL,
and read fixability from the tags. A diagnostic passing the guard whose
`path.file` or `category` is missing makes the JavaScript throw, embedded
as an error. -/
def biomeProcessLoc (cwd : String) (d : BiomeDiagnostic) (loc : BiomeLocation) :
    Except String (Option Issue) :=
  if loc.sourceCode = none ∨ loc.sourceCode = some "" ∨ loc.span = none then
    .ok none
  else
    match loc.sourceCode, loc.span, loc.pathFile, d.category with
    | some src, some (s, e), some pf, some cat =>
      let startPos := offsetToLineColumn src s
      let endPos := offsetToLineColumn src e
      let filePath := if pathIsAbs pf then pf else resolvePath cwd pf
      let ruleShort := ((cat.splitOn "/").getLastD "")
      .ok (some
        { path := relPath cwd filePath
          line := startPos.1
          column := startPos.2
          endLine := endPos.1
          endColumn := endPos.2
          severity :=
            if d.severity = some "error" then .error
            else if d.severity = some "info" then .info
            else .warning
          ruleId := "biome/" ++ ruleShort
          message := d.description
          source := .biome
          fix := none
          meta := some { docsUrl := some (biomeDocsUrl ruleShort)
                         category := none
                         fixable := d.tags.map (fun ts => ts.contains "fixable") } })
    | _, _, _, _ => .error "TypeError while traversing Biome output"

/-- One iteration of the `BiomeAdapter.parseOutput` loop: a diagnostic
with no usable location is skipped (`.ok none`). -/
def biomeProcessDiag (cwd : String) (d : BiomeDiagnostic) :
    Except String (Option Issue) :=
  match d.location with
  | none => .ok none
  | some loc => biomeProcessLoc cwd d loc

/-- The `BiomeAdapter.parseOutput` loop over decoded diagnostics. -/
def biomeIssuesOf (cwd : String) : List BiomeDiagnostic → Except String (List Issue)
  | [] => .ok []
  | d :: rest =>
    match biomeProcessDiag cwd d with
    | .error e => .error e
    | .ok none => biomeIssuesOf cwd rest
    | .ok (some issue) => (biomeIssuesOf cwd rest).map (issue :: ·)

/-- Decode-then-loop step of `BiomeAdapter.parseOutput` on parsed JSON. -/
def biomeIssuesFromJson (cwd : String) (j : Json) : Except String (List Issue) :=
  match decodeBiomeOutput j with
  | none => .error "TypeError while traversing Biome output"
  | some diags => biomeIssuesOf cwd diags

/-- `BiomeAdapter.parseOutput`: blank output is zero issues; otherwise
`JSON.parse` then the diagnostic loop. -/
def biomeParseOutput (stdout cwd : String) : Except String (List Issue) :=
  if jsTrim stdout = "" then .ok []
  else
    match jsonParse stdout with
    | .error e => .error e
    | .ok j => biomeIssuesFromJson cwd j

/-! ## tsc adapter (`src/linters/tsc.ts`) -/

/-- The projections of a `@aivenio/tsc-output-parser` `GrammarItem` that
`TscAdapter.parseOutput` reads: `value.path.value`, `value.cursor.value`,
`value.tsError.value.type`/`errorString`, `value.message.value`. -/
structure TscItem where
  path : String
  line : Int
  col : Int
  sevIsError : Bool
  errorString : String
  message : String

/-- `TscAdapter.parseOutput`, parametrized by the external grammar parser
`parse` (an external npm collaborator, passed as a function `g`; a thrown
parse exception is `Except.error`): blank output is zero issues; a grammar
failure is caught and tolerated as zero issues ("might be clean output");
recognized records map to point-span Issues with `error` severity exactly
when the keyword is `error`. -/
def tscParseOutput (g : String → Except String (List TscItem))
    (output cwd : String) : List Issue :=
  if jsTrim output = "" then []
  else
    match g output with
    | .error _ => []
    | .ok items =>
      items.map (fun it =>
        let absPath := if pathIsAbs it.path then it.path else resolvePath cwd it.path
        { path := relPath cwd absPath
          line := it.line
          column := it.col
          endLine := it.line
          endColumn := it.col
          severity := if it.sevIsError then .error else .warning
          ruleId := "tsc/" ++ it.errorString
          message := jsTrim it.message
          source := .tsc
          fix := none
          meta := none })

/-! ## Result filter (`filterByPatterns` in `src/linters/tsc.ts`) -/

/-- `replace(/\/+$/, '')`: strip all trailing slashes. -/
def stripTrailingSlashes (p : String) : String :=
  String.mk ((p.data.reverse.dropWhile (· == '/')).reverse)

/-- Pattern normalization from `filterByPatterns`: strip trailing slashes,
then `replace(/^\.\//, '.')` (one leading `./` becomes `.`). -/
def normalizePattern (p : String) : String :=
  match (stripTrailingSlashes p).data with
  | '.' :: '/' :: rest => String.mk ('.' :: rest)
  | _ => stripTrailingSlashes p

/-- `isGlobPattern`: `/[*?{[]/.test(pattern)`. -/
def isGlobPattern (p : String) : Bool :=
  p.data.any (fun c => c == '*' || c == '?' || c == '{' || c == '[')

/-- `filterByPatterns` from `src/linters/tsc.ts`. -/
def filterByPatterns (issues : List Issue) (patterns : List String) : List Issue :=
  if patterns.length = 0 then issues
  else
    let normalized := patterns.map normalizePattern
    if normalized.contains "." then issues
    else if normalized.any isGlobPattern then issues
    else
      issues.filter (fun issue =>
        normalized.any (fun pattern =>
          issue.path == pattern || strStartsWith issue.path (pattern ++ "/")))

/-! ## Version probes (`getVersion` of each adapter) -/

/-- Leftmost match attempt of `\d+\.\d+\.\d+` anchored at the head of the
list (each `\d+` greedy, as in the JavaScript regex). -/
def semverAt (l : List Char) : Option (List Char) :=
  let d1 := l.takeWhile Char.isDigit
  if d1 = [] then none
  else
    match l.dropWhile Char.isDigit with
    | '.' :: r2 =>
      let d2 := r2.takeWhile Char.isDigit
      if d2 = [] then none
      else
        match r2.dropWhile Char.isDigit with
        | '.' :: r4 =>
          let d3 := r4.takeWhile Char.isDigit
          if d3 = [] then none
          else some (d1 ++ '.' :: d2 ++ '.' :: d3)
        | _ => none
    | _ => none

/-- Leftmost match of `\d+\.\d+\.\d+` anywhere in the list
(`String.prototype.match` semantics). -/
def semverSearch : List Char → Option (List Char)
  | [] => none
  | c :: rest =>
    match semverAt (c :: rest) with
    | some m => some m
    | none => semverSearch rest

/-- `stdout.match(/(\d+\.\d+\.\d+)/)`, returning the matched substring. -/
def firstSemver (s : String) : Option String :=
  (semverSearch s.data).map String.mk

/-- `ESLintAdapter.getVersion`: `stdout.trim().replace(/^v/, '')`. -/
def eslintGetVersion (stdout : String) : String :=
  let t := jsTrim stdout
  match t.data with
  | 'v' :: rest => String.mk rest
  | _ => t

/-- `OxlintAdapter.getVersion`: first semver-shaped substring, falling
back to the trimmed output. -/
def oxlintGetVersion (stdout : String) : String :=
  (firstSemver stdout).getD (jsTrim stdout)

/-- `BiomeAdapter.getVersion`: first semver-shaped substring, falling
back to the trimmed output. -/
def biomeGetVersion (stdout : String) : String :=
  (firstSemver stdout).getD (jsTrim stdout)

/-- `TscAdapter.getVersion`: `binary` is the `findBinary` outcome (`none`
when neither `tsgo` nor `tsc` responds to `--version`, otherwise whether
the chosen binary is `tsgo`); `stdout` is the chosen binary's version
output. -/
def tscGetVersion (binary : Option Bool) (stdout : String) : String :=
  match binary with
  | none => "not found"
  | some isTsgo =>
    if isTsgo then "tsgo " ++ jsTrim stdout else jsTrim stdout

/-! ## Adapter run operations

Each `run` is embedded as a pure function of the captured process
execution result (`exec` in `src/utils/exec.ts` returns stdout, stderr,
exit code and a timeout flag). Wall-clock durations and file counts enter
as parameters. -/

/-- The result of the external `exec` collaborator. -/
structure ExecResult where
  stdout : String
  stderr : String
  exitCode : Int
  timedOut : Bool

/-- `ESLintAdapter.run` after the `exec` call: a timeout is a failure
naming the configured duration; exit code 2 without an output that starts
with `[` (the shape heuristic for the JSON array ESLint always emits) is a
configuration failure carrying stderr; otherwise the parser decides, and a
parse failure is caught into a failed result. -/
def eslintRun (r : ExecResult) (timeoutMs : Nat) (cwd : String)
    (nFiles durationMs : Nat) : LinterResult :=
  if r.timedOut then
    { success := false, error := some s!"ESLint timed out after {timeoutMs}ms",
      issues := [], filesProcessed := 0, durationMs }
  else if r.exitCode = 2 ∧ ¬ strStartsWith (jsTrim r.stdout) "[" then
    { success := false,
      error := some (if r.stderr = "" then "ESLint configuration error" else r.stderr),
      issues := [], filesProcessed := 0, durationMs }
  else
    match eslintParseOutput r.stdout cwd with
    | .ok issues =>
      { success := true, error := none, issues, filesProcessed := nFiles, durationMs }
    | .error e =>
      { success := false, error := some e, issues := [], filesProcessed := 0, durationMs }

/-- `OxlintAdapter.run` after the `exec` call. -/
def oxlintRun (r : ExecResult) (timeoutMs : Nat) (cwd : String)
    (nFiles durationMs : Nat) : LinterResult :=
  if r.timedOut then
    { success := false, error := some s!"Oxlint timed out after {timeoutMs}ms",
      issues := [], filesProcessed := 0, durationMs }
  else
    match oxlintParseOutput r.stdout cwd with
    | .ok issues =>
      { success := true, error := none, issues, filesProcessed := nFiles, durationMs }
    | .error e =>
      { success := false, error := some e, issues := [], filesProcessed := 0, durationMs }

/-- `BiomeAdapter.run` after the `exec` call. -/
def biomeRun (r : ExecResult) (timeoutMs : Nat) (cwd : String)
    (nFiles durationMs : Nat) : LinterResult :=
  if r.timedOut then
    { success := false, error := some s!"Biome timed out after {timeoutMs}ms",
      issues := [], filesProcessed := 0, durationMs }
  else
    match biomeParseOutput r.stdout cwd with
    | .ok issues =>
      { success := true, error := none, issues, filesProcessed := nFiles, durationMs }
    | .error e =>
      { success := false, error := some e, issues := [], filesProcessed := 0, durationMs }

/-- `TscAdapter.run`: `binary` is the `findBinary` outcome; with no
binary the run fails (not crashes); a timeout is a failure; otherwise the
free-text parser runs on stdout concatenated with stderr and never fails,
and the result filter narrows the issues to the requested patterns. -/
def tscRun (binary : Option Bool) (r : ExecResult)
    (g : String → Except String (List TscItem)) (patterns : List String)
    (timeoutMs : Nat) (cwd : String) (nFiles durationMs : Nat) : LinterResult :=
  match binary with
  | none =>
    { success := false, error := some "Neither tsgo nor tsc found in node_modules/.bin",
      issues := [], filesProcessed := 0, durationMs }
  | some _ =>
    if r.timedOut then
      { success := false, error := some s!"TypeScript check timed out after {timeoutMs}ms",
        issues := [], filesProcessed := 0, durationMs }
    else
      let allIssues := tscParseOutput g (r.stdout ++ "\n" ++ r.stderr) cwd
      { success := true, error := none,
        issues := filterByPatterns allIssues patterns,
        filesProcessed := nFiles, durationMs }

/-! ## Aggregation engine (`runLinters` in `src/runner.ts`) and the CLI
exit-code derivation (`src/index.ts`)

The concurrent `Promise.all` join is embedded as a list of per-adapter
outcomes: either the awaited `(version, result)` pair, or the message of
an exception thrown by `getVersion`/`run` (caught into a failed
`LinterRun`). Availability filtering happens upstream of this list, so
unavailable adapters contribute no outcome. -/

/-- The body of the per-adapter lambda in `runLinters`: build the
`LinterRun` and this tool's issue contribution. -/
def processAdapter (name : LinterName)
    (outcome : Except String (String × LinterResult))
    (fallbackDurationMs : Nat) : LinterRun × List Issue :=
  match outcome with
  | .ok (version, result) =>
    ({ name, version, success := result.success, error := result.error,
       durationMs := result.durationMs, filesProcessed := result.filesProcessed },
     result.issues)
  | .error e =>
    ({ name, version := "unknown", success := false, error := some e,
       durationMs := fallbackDurationMs, filesProcessed := 0 }, [])

/-- One requested-and-available adapter's identity and awaited outcome. -/
structure AdapterOutcome where
  name : LinterName
  fallbackDurationMs : Nat
  outcome : Except String (String × LinterResult)

/-- `runLinters` from `src/runner.ts` after file resolution: zero files
short-circuit to an empty report with a zero summary; otherwise the
adapter outcomes are merged, sorted and summarized. -/
def runLinters (files : List String) (outcomes : List AdapterOutcome)
    (timestamp cwd : String) (durationMs : Nat) : VibelintOutput :=
  if files.isEmpty then
    { timestamp, cwd, durationMs, linters := [], issues := [],
      summary := { total := 0, errors := 0, warnings := 0, info := 0, fixable := 0 } }
  else
    let results := outcomes.map (fun o => processAdapter o.name o.outcome o.fallbackDurationMs)
    let linters := results.map (·.1)
    let sortedIssues := sortIssues (results.flatMap (·.2))
    { timestamp, cwd, durationMs, linters, issues := sortedIssues,
      summary := computeSummary sortedIssues }

/-- `src/index.ts`: `const allFailed = output.linters.every(l => !l.success)`. -/
def allFailedFlag (output : VibelintOutput) : Bool :=
  output.linters.all (fun l => !l.success)

/-- The exit-code derivation of the CLI (`src/index.ts`):
`computeExitCode(output, failOn, allFailed)`. -/
def cliExitCode (output : VibelintOutput) (failOn : Severity) : Int :=
  computeExitCode output failOn (allFailedFlag output)

/-! ## Parser error-handling claims -/

/-- C4: each of the three structured-format parsers (ESLint, Oxlint,
Biome), given empty or whitespace-only input, returns an empty issue list
without raising; given non-blank, syntactically invalid (non-JSON) input,
it raises a malformed-output condition rather than returning an empty
result. -/
theorem structured_parsers_blank_and_invalid (s cwd : String) :
    ((∀ c ∈ s.data, jsWsChar c) →
      eslintParseOutput s cwd = .ok []
      ∧ oxlintParseOutput s cwd = .ok []
      ∧ biomeParseOutput s cwd = .ok [])
    ∧ (jsTrim s ≠ "" → (∃ e, jsonParse s = .error e) →
      (∃ e, eslintParseOutput s cwd = .error e)
      ∧ (∃ e, oxlintParseOutput s cwd = .error e)
      ∧ (∃ e, biomeParseOutput s cwd = .error e)) := by
  constructor
  · intro hws
    have ht : jsTrim s = "" := jsTrim_of_all_ws hws
    refine ⟨?_, ?_, ?_⟩ <;>
      first
        | (unfold eslintParseOutput; rw [if_pos ht])
        | (unfold oxlintParseOutput; rw [if_pos ht])
        | (unfold biomeParseOutput; rw [if_pos ht])
  · rintro hne ⟨e, he⟩
    refine ⟨⟨e, ?_⟩, ⟨e, ?_⟩, ⟨e, ?_⟩⟩ <;>
      first
        | (unfold eslintParseOutput; rw [if_neg hne, he])
        | (unfold oxlintParseOutput; rw [if_neg hne, he])
        | (unfold biomeParseOutput; rw [if_neg hne, he])

/-- Witness for `structured_parsers_blank_and_invalid` at whitespace-only
input `"  \t"` and invalid input `"not json"`. -/
theorem structured_parsers_blank_and_invalid_witness :
    (eslintParseOutput "  \t" "/p" = .ok []
      ∧ oxlintParseOutput "  \t" "/p" = .ok []
      ∧ biomeParseOutput "  \t" "/p" = .ok [])
    ∧ ((∃ e, eslintParseOutput "not json" "/p" = .error e)
      ∧ (∃ e, oxlintParseOutput "not json" "/p" = .error e)
      ∧ (∃ e, biomeParseOutput "not json" "/p" = .error e)) :=
  ⟨(structured_parsers_blank_and_invalid "  \t" "/p").1 (by decide),
   (structured_parsers_blank_and_invalid "not json" "/p").2 (by decide)
     ⟨"SyntaxError: unexpected token in JSON", by rfl⟩⟩

/-- C7: the free-text tsc parser, given input in which its grammar
recognizes no diagnostic record (the external grammar either throws or
yields no items), returns an empty issue list rather than raising — unlike
the three structured parsers. -/
theorem freetext_parser_tolerates_unrecognized
    (g : String → Except String (List TscItem)) (out cwd : String)
    (hne : out ≠ "")
    (h : (∃ e, g out = .error e) ∨ g out = .ok []) :
    tscParseOutput g out cwd = [] := by
  clear hne
  unfold tscParseOutput
  split
  · rfl
  · rcases h with ⟨e, he⟩ | he <;> rw [he] <;> rfl

/-- Witness for `freetext_parser_tolerates_unrecognized` with a grammar
that rejects the non-empty input `"hello"`. -/
theorem freetext_parser_tolerates_unrecognized_witness :
    tscParseOutput (fun _ => .error "no records recognized") "hello" "/p" = [] :=
  freetext_parser_tolerates_unrecognized _ "hello" "/p" (by decide)
    (Or.inl ⟨"no records recognized", rfl⟩)

/-! ## Aggregation claims -/

/-- C6 (the code violates its second half): with zero resolved files the
aggregation returns a report with zero ToolRuns, zero issues and a
zero-valued summary regardless of the requested tools — but the CLI's
exit-code derivation computes `allFailed` as `[].every(...) = true`, so
`computeExitCode` returns the tool-error status 2 for such a run, although
the spec (and the README's "2 = execution error") treat an empty clean run
as not an error condition. -/
theorem zero_files_empty_report_tool_error_exit
    (outcomes : List AdapterOutcome) (ts cwd : String) (d : Nat)
    (failOn : Severity) :
    (runLinters [] outcomes ts cwd d).linters = []
    ∧ (runLinters [] outcomes ts cwd d).issues = []
    ∧ (runLinters [] outcomes ts cwd d).summary
        = { total := 0, errors := 0, warnings := 0, info := 0, fixable := 0 }
    ∧ allFailedFlag (runLinters [] outcomes ts cwd d) = true
    ∧ cliExitCode (runLinters [] outcomes ts cwd d) failOn = 2 :=
  ⟨rfl, rfl, rfl, rfl, rfl⟩

/-- A `LinterResult` in the image of one of the four adapter run
operations. -/
def producedResult (res : LinterResult) : Prop :=
  (∃ r t cwd n d, res = eslintRun r t cwd n d)
  ∨ (∃ r t cwd n d, res = oxlintRun r t cwd n d)
  ∨ (∃ r t cwd n d, res = biomeRun r t cwd n d)
  ∨ (∃ b r g ps t cwd n d, res = tscRun b r g ps t cwd n d)

theorem eslintRun_failed_empty (r : ExecResult) (t : Nat) (cwd : String)
    (n d : Nat) (h : (eslintRun r t cwd n d).success = false) :
    (eslintRun r t cwd n d).issues = [] := by
  by_cases h1 : r.timedOut = true
  · unfold eslintRun; rw [if_pos h1]
  · by_cases h2 : r.exitCode = 2 ∧ ¬ strStartsWith (jsTrim r.stdout) "[" = true
    · unfold eslintRun; rw [if_neg h1, if_pos h2]
    · cases hp : eslintParseOutput r.stdout cwd with
      | ok issues =>
        exfalso
        unfold eslintRun at h
        rw [if_neg h1, if_neg h2, hp] at h
        exact absurd h (by simp)
      | error e =>
        unfold eslintRun
        rw [if_neg h1, if_neg h2, hp]

theorem oxlintRun_failed_empty (r : ExecResult) (t : Nat) (cwd : String)
    (n d : Nat) (h : (oxlintRun r t cwd n d).success = false) :
    (oxlintRun r t cwd n d).issues = [] := by
  by_cases h1 : r.timedOut = true
  · unfold oxlintRun; rw [if_pos h1]
  · cases hp : oxlintParseOutput r.stdout cwd with
    | ok issues =>
      exfalso
      unfold oxlintRun at h
      rw [if_neg h1, hp] at h
      exact absurd h (by simp)
    | error e =>
      unfold oxlintRun
      rw [if_neg h1, hp]

theorem biomeRun_failed_empty (r : ExecResult) (t : Nat) (cwd : String)
    (n d : Nat) (h : (biomeRun r t cwd n d).success = false) :
    (biomeRun r t cwd n d).issues = [] := by
  by_cases h1 : r.timedOut = true
  · unfold biomeRun; rw [if_pos h1]
  · cases hp : biomeParseOutput r.stdout cwd with
    | ok issues =>
      exfalso
      unfold biomeRun at h
      rw [if_neg h1, hp] at h
      exact absurd h (by simp)
    | error e =>
      unfold biomeRun
      rw [if_neg h1, hp]

theorem tscRun_failed_empty (b : Option Bool) (r : ExecResult)
    (g : String → Except String (List TscItem)) (ps : List String)
    (t : Nat) (cwd : String) (n d : Nat)
    (h : (tscRun b r g ps t cwd n d).success = false) :
    (tscRun b r g ps t cwd n d).issues = [] := by
  cases b with
  | none => rfl
  | some isTsgo =>
    by_cases h1 : r.timedOut = true
    · unfold tscRun; rw [if_pos h1]
    · exfalso
      unfold tscRun at h
      rw [if_neg h1] at h
      exact absurd h (by simp)

/-- C5: every ToolRun entry the aggregation builds from an adapter outcome
(either a result returned by one of the four adapter run operations, or a
caught exception) contributes zero issues to the merged list whenever its
success flag is false — a failed, timed-out, or throwing tool never
contributes partial findings. -/
theorem failed_tool_contributes_zero_issues (name : LinterName)
    (outcome : Except String (String × LinterResult)) (fd : Nat)
    (hprod : ∀ v res, outcome = .ok (v, res) → producedResult res)
    (hfail : (processAdapter name outcome fd).1.success = false) :
    (processAdapter name outcome fd).2 = [] := by
  match outcome with
  | .error e => rfl
  | .ok (v, res) =>
    have hp := hprod v res rfl
    have hs : res.success = false := hfail
    show res.issues = []
    rcases hp with ⟨r, t, c, n, d, rfl⟩ | ⟨r, t, c, n, d, rfl⟩
      | ⟨r, t, c, n, d, rfl⟩ | ⟨b, r, g, ps, t, c, n, d, rfl⟩
    · exact eslintRun_failed_empty r t c n d hs
    · exact oxlintRun_failed_empty r t c n d hs
    · exact biomeRun_failed_empty r t c n d hs
    · exact tscRun_failed_empty b r g ps t c n d hs

/-- Witness for `failed_tool_contributes_zero_issues`: a timed-out ESLint
run contributes no issues. -/
theorem failed_tool_contributes_zero_issues_witness :
    (processAdapter .eslint
      (.ok ("9.0.0", eslintRun ⟨"", "", -1, true⟩ 30000 "/p" 1 5)) 5).2 = [] :=
  failed_tool_contributes_zero_issues .eslint _ 5
    (fun v res h => by
      cases h
      exact Or.inl ⟨_, _, _, _, _, rfl⟩)
    (by rfl)

/-! ## Result-filter claims -/

/-- A minimal issue used by concrete witnesses and counterexamples. -/
def sampleIssue (p : String) : Issue :=
  { path := p, line := 1, column := 1, endLine := 1, endColumn := 1,
    severity := .error, ruleId := "tsc/TS2322", message := "m",
    source := .tsc, fix := none, meta := none }

/-- The keep-condition of the result filter exactly as the claim words it:
the issue's path exactly equals some requested pattern, or begins with
that pattern followed by the platform path separator. -/
def specLiteralKeep (path : String) (patterns : List String) : Bool :=
  patterns.any (fun pat => path == pat || strStartsWith path (pat ++ "/"))

/-- C9 counterexample: for requested pattern `"src/"` (with its trailing
slash) the code keeps an issue at `src/a.ts` — the code matches against
the normalized pattern `"src"` — while the claim's literal keep-condition
over the requested pattern discards it. -/
theorem result_filter_counterexample :
    filterByPatterns [sampleIssue "src/a.ts"] ["src/"] = [sampleIssue "src/a.ts"]
    ∧ specLiteralKeep "src/a.ts" ["src/"] = false := by
  constructor
  · rfl
  · rfl

theorem strip_data_rev (p : String) :
    (stripTrailingSlashes p).data.reverse
      = p.data.reverse.dropWhile (fun c => c == '/') := by
  unfold stripTrailingSlashes
  simp

theorem normalizePattern_eq_dot_iff (p : String) :
    normalizePattern p = "." ↔ stripTrailingSlashes p = "." := by
  unfold normalizePattern
  constructor
  · intro h
    split at h
    · rename_i rest heq
      exfalso
      have hrest : rest = [] := by
        have h2 := congrArg String.data h
        simpa using h2
      subst hrest
      have hrev : (stripTrailingSlashes p).data.reverse = ['/', '.'] := by
        rw [heq]
        rfl
      rw [strip_data_rev] at hrev
      have h5 := List.head?_dropWhile_not (fun c => c == '/') p.data.reverse
      rw [hrev] at h5
      simp at h5
    · exact h
  · intro h
    split
    · rename_i rest heq
      exfalso
      rw [h] at heq
      simp at heq
    · exact h

theorem glob_char_mem_iff (p : String) :
    isGlobPattern p = true ↔
      ∃ c ∈ p.data, (c == '*' || c == '?' || c == '{' || c == '[') = true := by
  unfold isGlobPattern
  exact List.any_eq_true

theorem isGlob_strip_iff (p : String) :
    isGlobPattern (stripTrailingSlashes p) = true ↔ isGlobPattern p = true := by
  rw [glob_char_mem_iff, glob_char_mem_iff]
  constructor
  · rintro ⟨c, hc, hg⟩
    refine ⟨c, ?_, hg⟩
    have h1 : c ∈ (stripTrailingSlashes p).data.reverse := List.mem_reverse.mpr hc
    rw [strip_data_rev] at h1
    have h2 : c ∈ p.data.reverse := (List.dropWhile_sublist _).mem h1
    exact List.mem_reverse.mp h2
  · rintro ⟨c, hc, hg⟩
    refine ⟨c, ?_, hg⟩
    have h1 : c ∈ p.data.reverse := List.mem_reverse.mpr hc
    rw [← List.takeWhile_append_dropWhile (fun c => c == '/') p.data.reverse] at h1
    rcases List.mem_append.mp h1 with h2 | h2
    · exfalso
      have hsl : (c == '/') = true := List.mem_takeWhile_imp (p := fun c => c == '/') h2
      rw [beq_iff_eq] at hsl
      subst hsl
      exact absurd hg (by decide)
    · rw [← strip_data_rev] at h2
      exact List.mem_reverse.mp h2

theorem isGlob_norm_iff (p : String) :
    isGlobPattern (normalizePattern p) = true ↔ isGlobPattern p = true := by
  rw [← isGlob_strip_iff p]
  unfold normalizePattern
  split
  · rename_i rest heq
    rw [glob_char_mem_iff, glob_char_mem_iff, heq]
    constructor
    · rintro ⟨c, hc, hg⟩
      have hc' : c ∈ '.' :: rest := hc
      refine ⟨c, ?_, hg⟩
      rcases List.mem_cons.mp hc' with h | h
      · subst h; exact absurd hg (by decide)
      · exact List.mem_cons.mpr (Or.inr (List.mem_cons.mpr (Or.inr h)))
    · rintro ⟨c, hc, hg⟩
      rcases List.mem_cons.mp hc with h | h
      · subst h; exact absurd hg (by decide)
      · rcases List.mem_cons.mp h with h2 | h2
        · subst h2; exact absurd hg (by decide)
        · exact ⟨c, show c ∈ '.' :: rest from List.mem_cons.mpr (Or.inr h2), hg⟩
  · exact Iff.rfl

theorem contains_norm_dot_iff (patterns : List String) :
    (patterns.map normalizePattern).contains "." = true ↔
      ∃ p ∈ patterns, stripTrailingSlashes p = "." := by
  rw [List.contains_iff_exists_mem_beq]
  constructor
  · rintro ⟨q, hq, hbeq⟩
    obtain ⟨p, hp, rfl⟩ := List.mem_map.mp hq
    rw [beq_iff_eq] at hbeq
    exact ⟨p, hp, (normalizePattern_eq_dot_iff p).mp hbeq.symm⟩
  · rintro ⟨p, hp, hs⟩
    refine ⟨normalizePattern p, List.mem_map.mpr ⟨p, hp, rfl⟩, ?_⟩
    rw [beq_iff_eq]
    exact ((normalizePattern_eq_dot_iff p).mpr hs).symm

theorem any_norm_glob_iff (patterns : List String) :
    (patterns.map normalizePattern).any isGlobPattern = true ↔
      ∃ p ∈ patterns, isGlobPattern p = true := by
  rw [List.any_map, List.any_eq_true]
  constructor
  · rintro ⟨p, hp, hg⟩
    exact ⟨p, hp, (isGlob_norm_iff p).mp hg⟩
  · rintro ⟨p, hp, hg⟩
    exact ⟨p, hp, (isGlob_norm_iff p).mpr hg⟩

/-- C9 amended: the result filter keeps every issue when the pattern list
is empty, when some pattern strips (of trailing slashes) to the
current-directory sentinel `.`, or when some pattern contains glob
metacharacters; otherwise it keeps an issue if and only if its path
exactly equals some requested pattern's normalization (trailing slashes
stripped, a leading `./` collapsed to `.`) or begins with that normalized
pattern followed by the platform path separator. The filter never
reorders or duplicates issues. -/
theorem result_filter_amended (issues : List Issue) (patterns : List String) :
    (∀ i, i ∈ filterByPatterns issues patterns ↔
      i ∈ issues ∧
        (patterns = []
          ∨ (∃ p ∈ patterns, stripTrailingSlashes p = ".")
          ∨ (∃ p ∈ patterns, isGlobPattern p = true)
          ∨ (∃ p ∈ patterns, i.path = normalizePattern p
              ∨ strStartsWith i.path (normalizePattern p ++ "/") = true)))
    ∧ List.Sublist (filterByPatterns issues patterns) issues := by
  by_cases h0 : patterns.length = 0
  · have hp0 : patterns = [] := List.length_eq_zero.mp h0
    have hfb : filterByPatterns issues patterns = issues := by
      simp only [filterByPatterns]
      rw [if_pos h0]
    rw [hfb]
    exact ⟨fun i => by simp [hp0], List.Sublist.refl issues⟩
  · by_cases h1 : (patterns.map normalizePattern).contains "." = true
    · have hfb : filterByPatterns issues patterns = issues := by
        simp only [filterByPatterns]
        rw [if_neg h0, if_pos h1]
      rw [hfb]
      refine ⟨fun i => ?_, List.Sublist.refl issues⟩
      have hs := (contains_norm_dot_iff patterns).mp h1
      simp [hs]
    · by_cases h2 : (patterns.map normalizePattern).any isGlobPattern = true
      · have hfb : filterByPatterns issues patterns = issues := by
          simp only [filterByPatterns]
          rw [if_neg h0, if_neg h1, if_pos h2]
        rw [hfb]
        refine ⟨fun i => ?_, List.Sublist.refl issues⟩
        have hs := (any_norm_glob_iff patterns).mp h2
        simp [hs]
      · have hfb : filterByPatterns issues patterns
            = issues.filter (fun issue =>
                (patterns.map normalizePattern).any (fun pattern =>
                  issue.path == pattern || strStartsWith issue.path (pattern ++ "/"))) := by
          simp only [filterByPatterns]
          rw [if_neg h0, if_neg h1, if_neg h2]
        rw [hfb]
        refine ⟨fun i => ?_, List.filter_sublist issues⟩
        rw [List.mem_filter]
        constructor
        · rintro ⟨hi, hk⟩
          refine ⟨hi, Or.inr (Or.inr (Or.inr ?_))⟩
          rw [List.any_map, List.any_eq_true] at hk
          obtain ⟨p, hp, hcond⟩ := hk
          simp only [Function.comp] at hcond
          rw [Bool.or_eq_true, beq_iff_eq] at hcond
          exact ⟨p, hp, hcond⟩
        · rintro ⟨hi, hdisj⟩
          refine ⟨hi, ?_⟩
          rcases hdisj with h | h | h | h
          · exact absurd (by simp [h]) h0
          · exact absurd ((contains_norm_dot_iff patterns).mpr h) h1
          · exact absurd ((any_norm_glob_iff patterns).mpr h) h2
          · obtain ⟨p, hp, hc⟩ := h
            rw [List.any_map, List.any_eq_true]
            refine ⟨p, hp, ?_⟩
            simp only [Function.comp]
            rw [Bool.or_eq_true, beq_iff_eq]
            exact hc

/-! ## Version-probe claims -/

/-- C10 counterexample: the ESLint version probe does not extract a
semver-shaped substring — on output containing `9.1.0` inside other text
it returns the whole trimmed text, although a semver-shaped substring is
present and the claimed extraction would return it. -/
theorem version_probe_counterexample :
    eslintGetVersion "eslint version 9.1.0" = "eslint version 9.1.0"
    ∧ firstSemver "eslint version 9.1.0" = some "9.1.0"
    ∧ ("eslint version 9.1.0" : String) ≠ "9.1.0" := by
  refine ⟨rfl, rfl, ?_⟩
  decide

/-- Decomposition of a semver-shaped string: three non-empty digit runs
separated by dots (the semantic content of "semantic-version-shaped"). -/
def SemverShape (m : List Char) : Prop :=
  ∃ d1 d2 d3 : List Char,
    m = d1 ++ '.' :: d2 ++ '.' :: d3
    ∧ d1 ≠ [] ∧ d2 ≠ [] ∧ d3 ≠ []
    ∧ (∀ c ∈ d1, c.isDigit = true) ∧ (∀ c ∈ d2, c.isDigit = true)
    ∧ (∀ c ∈ d3, c.isDigit = true)

theorem semverAt_spec {l m : List Char} (h : semverAt l = some m) :
    SemverShape m ∧ ∃ r, l = m ++ r := by
  simp only [semverAt] at h
  split at h
  · cases h
  · rename_i h1
    split at h
    · rename_i r2 hdrop1
      split at h
      · cases h
      · rename_i h2
        split at h
        · rename_i r4 hdrop2
          split at h
          · cases h
          · rename_i h3
            cases h
            constructor
            · exact ⟨_, _, _, rfl, h1, h2, h3,
                fun c hc => List.mem_takeWhile_imp hc,
                fun c hc => List.mem_takeWhile_imp hc,
                fun c hc => List.mem_takeWhile_imp hc⟩
            · refine ⟨r4.dropWhile Char.isDigit, ?_⟩
              conv_lhs => rw [← List.takeWhile_append_dropWhile (p := Char.isDigit) (l := l)]
              rw [hdrop1]
              conv_lhs => rw [← List.takeWhile_append_dropWhile (p := Char.isDigit) (l := r2)]
              rw [hdrop2]
              conv_lhs => rw [← List.takeWhile_append_dropWhile (p := Char.isDigit) (l := r4)]
              simp
        · cases h
    · cases h

theorem semverSearch_spec : ∀ {l m : List Char}, semverSearch l = some m →
    (SemverShape m ∧ ∃ pre post, l = pre ++ m ++ post) := by
  intro l
  induction l with
  | nil => intro m h; cases h
  | cons c rest ih =>
    intro m h
    unfold semverSearch at h
    cases hat : semverAt (c :: rest) with
    | some m2 =>
      rw [hat] at h
      cases h
      obtain ⟨hshape, r, hpre⟩ := semverAt_spec hat
      exact ⟨hshape, [], r, by simpa using hpre⟩
    | none =>
      rw [hat] at h
      obtain ⟨hshape, pre, post, hsplit⟩ := ih h
      exact ⟨hshape, c :: pre, post, by simp [hsplit]⟩

/-- C10 amended: the oxlint and biome version probes extract the leftmost
semver-shaped substring of the version output (a non-empty
digits-dot-digits-dot-digits decomposition that occurs as a substring),
falling back to the raw trimmed output when none exists; the tsc probe
returns the fixed `"not found"` sentinel when neither candidate binary is
locatable, and otherwise the trimmed output (with a `"tsgo "` tag when the
`tsgo` binary answered), without semver extraction; the ESLint probe
merely trims and strips one leading `v`, without semver extraction and
with no sentinel. -/
theorem version_probes_amended :
    (∀ s m, firstSemver s = some m →
      oxlintGetVersion s = m ∧ biomeGetVersion s = m
      ∧ SemverShape m.data
      ∧ ∃ pre post, s.data = pre ++ m.data ++ post)
    ∧ (∀ s, firstSemver s = none →
      oxlintGetVersion s = jsTrim s ∧ biomeGetVersion s = jsTrim s)
    ∧ (∀ s, tscGetVersion none s = "not found")
    ∧ (∀ s isTsgo, tscGetVersion (some isTsgo) s
        = (if isTsgo then "tsgo " ++ jsTrim s else jsTrim s))
    ∧ (∀ s, eslintGetVersion s
        = (match (jsTrim s).data with
           | 'v' :: rest => String.mk rest
           | _ => jsTrim s)) := by
  refine ⟨?_, ?_, fun s => rfl, fun s isTsgo => rfl, fun s => rfl⟩
  · intro s m h
    have h0 : ∃ ml, semverSearch s.data = some ml ∧ m = String.mk ml := by
      unfold firstSemver at h
      cases hs : semverSearch s.data with
      | none => rw [hs] at h; cases h
      | some ml => rw [hs] at h; cases h; exact ⟨ml, rfl, rfl⟩
    obtain ⟨ml, hs, rfl⟩ := h0
    obtain ⟨hshape, pre, post, hsplit⟩ := semverSearch_spec hs
    refine ⟨?_, ?_, hshape, pre, post, hsplit⟩
    · unfold oxlintGetVersion
      rw [h]
      rfl
    · unfold biomeGetVersion
      rw [h]
      rfl
  · intro s h
    constructor
    · unfold oxlintGetVersion
      rw [h]
      rfl
    · unfold biomeGetVersion
      rw [h]
      rfl

/-- Witness for `version_probes_amended` at concrete probe outputs. -/
theorem version_probes_amended_witness :
    oxlintGetVersion "oxlint version 0.15.2" = "0.15.2"
    ∧ biomeGetVersion "no digits here" = jsTrim "no digits here"
    ∧ tscGetVersion none "whatever" = "not found" := by
  refine ⟨?_, ?_, ?_⟩
  · exact (version_probes_amended.1 "oxlint version 0.15.2" "0.15.2" (by rfl)).1
  · exact (version_probes_amended.2.1 "no digits here" (by rfl)).2
  · exact version_probes_amended.2.2.1 "whatever"

/-! ## Issue coordinate-bound claims

The parsers copy tool-reported coordinates into Issues without validation,
so the line/column ordering invariant holds exactly when the native input
is well-formed; the checkers below state the per-format conditions. -/

/-- The claimed ordering invariant of one Issue:
`1 ≤ line ≤ endLine`, and `column ≤ endColumn` when `line = endLine`. -/
def issueOrderedB (i : Issue) : Bool :=
  decide (1 ≤ i.line) && decide (i.line ≤ i.endLine)
  && (!decide (i.line = i.endLine) || decide (i.column ≤ i.endColumn))

/-- The issue list of a parser result (a failed parse yields no issues). -/
def issuesOf (r : Except String (List Issue)) : List Issue :=
  match r with
  | .ok issues => issues
  | .error _ => []

/-- Well-formed coordinates of one native ESLint message (what real
ESLint emits): positive start line, end position at or after the start. -/
def eslintMsgWF (m : ESLintMessage) : Bool :=
  decide (1 ≤ m.line) && decide (m.line ≤ m.endLine.getD m.line)
  && (!decide (m.line = m.endLine.getD m.line)
      || decide (m.column ≤ m.endColumn.getD m.column))

/-- ESLint output whose decodable messages are all well-formed. -/
def eslintInputWF (s : String) : Bool :=
  match (jsonParse s).toOption.bind decodeESLintResults with
  | none => true
  | some results => results.all (fun fr => fr.messages.all eslintMsgWF)

/-- Well-formed oxlint label: positive line, non-negative span length. -/
def oxlintLabelWF (lb : OxlintLabel) : Bool :=
  decide (1 ≤ lb.line) && decide (0 ≤ lb.length)

def oxlintInputWF (s : String) : Bool :=
  match (jsonParse s).toOption.bind decodeOxlintOutput with
  | none => true
  | some diags => diags.all (fun d => d.labels.all oxlintLabelWF)

/-- Well-formed Biome diagnostic: byte span in order. -/
def biomeDiagWF (d : BiomeDiagnostic) : Bool :=
  match d.location with
  | some loc =>
    match loc.span with
    | some (a, b) => decide (a ≤ b)
    | none => true
  | none => true

def biomeInputWF (s : String) : Bool :=
  match (jsonParse s).toOption.bind decodeBiomeOutput with
  | none => true
  | some diags => diags.all biomeDiagWF

/-- Well-formed tsc grammar items: positive reported line. -/
def tscItemsWF (items : List TscItem) : Bool :=
  items.all (fun it => decide (1 ≤ it.line))

/-- C8 counterexample: an ESLint payload whose message reports
`endLine: 3` below `line: 5` is copied verbatim by the parser, producing
an Issue that violates `line ≤ endLine` — the claim fails because no
parser validates the tool-reported coordinates. -/
theorem parser_issue_bounds_counterexample :
    (issuesOf (eslintParseOutput
      "[\x7b\"filePath\":\"/p/a.ts\",\"messages\":[\x7b\"ruleId\":null,\"severity\":2,\"message\":\"m\",\"line\":5,\"column\":1,\"endLine\":3,\"endColumn\":1\x7d]\x7d]"
      "/p")).any (fun i => !issueOrderedB i) = true := by
  rfl

theorem mapMAux_option_mem {α β : Type} {f : α → Option β} :
    ∀ {l : List α} {l2 : List β}, List.mapM' f l = some l2 →
      ∀ y ∈ l2, ∃ x ∈ l, f x = some y := by
  intro l
  induction l with
  | nil =>
    intro l2 h y hy
    cases h
    cases hy
  | cons a as ih =>
    intro l2 h y hy
    simp only [List.mapM'] at h
    cases hfa : f a with
    | none => rw [hfa] at h; cases h
    | some b =>
      rw [hfa] at h
      cases hmm : List.mapM' f as with
      | none => rw [hmm] at h; cases h
      | some bs =>
        rw [hmm] at h
        cases h
        rcases List.mem_cons.mp hy with rfl | hy2
        · exact ⟨a, List.mem_cons_self _ _, hfa⟩
        · obtain ⟨x, hx, hfx⟩ := ih hmm y hy2
          exact ⟨x, List.mem_cons_of_mem _ hx, hfx⟩

theorem mapM_option_mem_src {α β : Type} {f : α → Option β}
    {l : List α} {l2 : List β} (h : l.mapM f = some l2) :
    ∀ y ∈ l2, ∃ x ∈ l, f x = some y := by
  rw [← List.mapM'_eq_mapM] at h
  exact mapMAux_option_mem h

theorem eslintIssueOfMsg_ordered {cwd fp : String} {m : ESLintMessage} {i : Issue}
    (h : eslintIssueOfMsg cwd fp m = some i) (hwf : eslintMsgWF m = true) :
    issueOrderedB i = true := by
  unfold eslintIssueOfMsg at h
  cases hf : eslintFixOf m with
  | none => rw [hf] at h; cases h
  | some fx =>
    rw [hf] at h
    injection h with h2
    subst h2
    exact hwf

/-- Lexicographic order on (line, column) pairs. -/
def lexLE (a b : Int × Int) : Prop :=
  a.1 < b.1 ∨ (a.1 = b.1 ∧ a.2 ≤ b.2)

theorem offsetWalk_ge : ∀ (off : Int) (l : List Char) (cur line col : Int),
    lexLE (line, col) (offsetWalk off l cur line col) := by
  intro off l
  induction l with
  | nil => intro cur line col; right; exact ⟨rfl, le_refl _⟩
  | cons c cs ih =>
    intro cur line col
    unfold offsetWalk
    split
    · right; exact ⟨rfl, le_refl _⟩
    · split
      · rcases ih (cur + 1) (line + 1) 1 with h | ⟨h, h2⟩
        · left; simp only at h ⊢; omega
        · left; simp only at h ⊢; omega
      · rcases ih (cur + 1) line (col + 1) with h | ⟨h, h2⟩
        · left; exact h
        · right; refine ⟨h, ?_⟩; simp only at h2 ⊢; omega

theorem offsetWalk_mono : ∀ (l : List Char) (cur line col : Int) {s e : Int},
    s ≤ e →
    lexLE (offsetWalk s l cur line col) (offsetWalk e l cur line col) := by
  intro l
  induction l with
  | nil => intro cur line col s e _; right; exact ⟨rfl, le_refl _⟩
  | cons c cs ih =>
    intro cur line col s e hse
    unfold offsetWalk
    by_cases h1 : cur ≥ s
    · rw [if_pos h1]
      by_cases h2 : cur ≥ e
      · rw [if_pos h2]; right; exact ⟨rfl, le_refl _⟩
      · rw [if_neg h2]
        split
        · rcases offsetWalk_ge e cs (cur + 1) (line + 1) 1 with h | ⟨h, h3⟩ <;>
            (left; simp only at h ⊢; omega)
        · rcases offsetWalk_ge e cs (cur + 1) line (col + 1) with h | ⟨h, h3⟩
          · left; exact h
          · right; refine ⟨h, ?_⟩; simp only at h3 ⊢; omega
    · rw [if_neg h1, if_neg (by omega : ¬ cur ≥ e)]
      split
      · exact ih (cur + 1) (line + 1) 1 hse
      · exact ih (cur + 1) line (col + 1) hse

theorem offsetToLineColumn_line_pos (src : String) (off : Int) :
    1 ≤ (offsetToLineColumn src off).1
    ∧ (1 = (offsetToLineColumn src off).1 → 1 ≤ (offsetToLineColumn src off).2) := by
  unfold offsetToLineColumn
  rcases offsetWalk_ge off src.data 0 1 1 with h | ⟨h, h2⟩
  · simp only at h
    exact ⟨by omega, fun he => absurd he (by omega)⟩
  · simp only at h h2
    exact ⟨by omega, fun _ => by omega⟩

theorem offsetToLineColumn_mono (src : String) {s e : Int} (hse : s ≤ e) :
    (offsetToLineColumn src s).1 ≤ (offsetToLineColumn src e).1
    ∧ ((offsetToLineColumn src s).1 = (offsetToLineColumn src e).1 →
        (offsetToLineColumn src s).2 ≤ (offsetToLineColumn src e).2) := by
  unfold offsetToLineColumn
  rcases offsetWalk_mono src.data 0 1 1 hse with h | ⟨h, h2⟩
  · exact ⟨le_of_lt h, fun he => absurd he (by omega)⟩
  · exact ⟨le_of_eq h, fun _ => h2⟩

theorem biomeProcessDiag_ordered {cwd : String} {d : BiomeDiagnostic} {i : Issue}
    (h : biomeProcessDiag cwd d = .ok (some i)) (hwf : biomeDiagWF d = true) :
    issueOrderedB i = true := by
  unfold biomeProcessDiag at h
  cases hloc : d.location with
  | none => rw [hloc] at h; exact absurd h (by simp)
  | some loc =>
    rw [hloc] at h
    have h2 : biomeProcessLoc cwd d loc = .ok (some i) := h
    clear h
    unfold biomeProcessLoc at h2
    split at h2
    · exact absurd h2 (by simp)
    · rename_i hskip
      cases hsrc : loc.sourceCode with
      | none => exact absurd (Or.inl hsrc) hskip
      | some src =>
      cases hspan : loc.span with
      | none => exact absurd (Or.inr (Or.inr hspan)) hskip
      | some se =>
      obtain ⟨sp, e⟩ := se
      cases hpf : loc.pathFile with
      | none =>
        rw [hsrc, hspan, hpf] at h2
        cases hcat : d.category with
        | none =>
          rw [hcat] at h2
          have h3 : (Except.error "TypeError while traversing Biome output"
              : Except String (Option Issue)) = .ok (some i) := h2
          cases h3
        | some cat =>
          rw [hcat] at h2
          have h3 : (Except.error "TypeError while traversing Biome output"
              : Except String (Option Issue)) = .ok (some i) := h2
          cases h3
      | some pf =>
      cases hcat : d.category with
      | none =>
        rw [hsrc, hspan, hpf, hcat] at h2
        have h3 : (Except.error "TypeError while traversing Biome output"
            : Except String (Option Issue)) = .ok (some i) := h2
        cases h3
      | some cat =>
        rw [hsrc, hspan, hpf, hcat] at h2
        have h3 : (Except.ok (some
            { path := relPath cwd (if pathIsAbs pf then pf else resolvePath cwd pf)
              line := (offsetToLineColumn src sp).1
              column := (offsetToLineColumn src sp).2
              endLine := (offsetToLineColumn src e).1
              endColumn := (offsetToLineColumn src e).2
              severity :=
                if d.severity = some "error" then .error
                else if d.severity = some "info" then .info
                else .warning
              ruleId := "biome/" ++ ((cat.splitOn "/").getLastD "")
              message := d.description
              source := .biome
              fix := none
              meta := some { docsUrl := some (biomeDocsUrl ((cat.splitOn "/").getLastD ""))
                             category := none
                             fixable := d.tags.map (fun ts => ts.contains "fixable") } })
            : Except String (Option Issue)) = .ok (some i) := h2
        have h4 := Option.some.inj (Except.ok.inj h3)
        subst h4
        have hab : sp ≤ e := by
          have hwf2 : (match loc.span with
              | some (a, b) => decide (a ≤ b)
              | none => true) = true := by
            unfold biomeDiagWF at hwf
            rw [hloc] at hwf
            exact hwf
          rw [hspan] at hwf2
          simpa using hwf2
        have hpos := offsetToLineColumn_line_pos src sp
        have hmono := offsetToLineColumn_mono src hab
        simp only [issueOrderedB]
        rw [Bool.and_eq_true, Bool.and_eq_true, Bool.or_eq_true]
        refine ⟨⟨by simp only [decide_eq_true_eq]; exact hpos.1,
                 by simp only [decide_eq_true_eq]; exact hmono.1⟩, ?_⟩
        by_cases heq : (offsetToLineColumn src sp).1 = (offsetToLineColumn src e).1
        · right; simp only [decide_eq_true_eq]; exact hmono.2 heq
        · left; simp only [Bool.not_eq_true', decide_eq_false_iff_not]; exact heq

theorem biomeIssuesOf_ordered (cwd : String) :
    ∀ (diags : List BiomeDiagnostic), (∀ d ∈ diags, biomeDiagWF d = true) →
    ∀ issues, biomeIssuesOf cwd diags = .ok issues →
    ∀ i ∈ issues, issueOrderedB i = true := by
  intro diags
  induction diags with
  | nil =>
    intro _ issues h i hi
    cases h
    cases hi
  | cons d rest ih =>
    intro hwf issues h i hi
    have hwfd := hwf d (List.mem_cons_self _ _)
    have hwfrest := fun d hd => hwf d (List.mem_cons_of_mem _ hd)
    unfold biomeIssuesOf at h
    cases hp : biomeProcessDiag cwd d with
    | error e => rw [hp] at h; cases h
    | ok oi =>
      rw [hp] at h
      cases oi with
      | none => exact ih hwfrest issues h i hi
      | some issue =>
        cases hrec : biomeIssuesOf cwd rest with
        | error e => rw [hrec] at h; cases h
        | ok tl =>
          rw [hrec] at h
          cases h
          rcases List.mem_cons.mp hi with rfl | hi2
          · exact biomeProcessDiag_ordered hp hwfd
          · exact ih hwfrest tl hrec i hi2

/-- C8 amended: every Issue produced by any of the four parsers satisfies
`1 ≤ line ≤ endLine` (and `column ≤ endColumn` when `line = endLine`)
provided the native tool output is well-formed: ESLint messages with
`1 ≤ line` and end position at or after the start, oxlint labels with
`line ≥ 1` and `length ≥ 0`, Biome spans with `startOffset ≤ endOffset`,
and tsc records with `line ≥ 1`. Without these conditions the parsers
copy the tool-reported coordinates verbatim and the invariant can fail
(see the counterexample). -/
theorem parser_issue_bounds_amended :
    (∀ s cwd, eslintInputWF s = true →
      ∀ i ∈ issuesOf (eslintParseOutput s cwd), issueOrderedB i = true)
    ∧ (∀ s cwd, oxlintInputWF s = true →
      ∀ i ∈ issuesOf (oxlintParseOutput s cwd), issueOrderedB i = true)
    ∧ (∀ s cwd, biomeInputWF s = true →
      ∀ i ∈ issuesOf (biomeParseOutput s cwd), issueOrderedB i = true)
    ∧ (∀ (g : String → Except String (List TscItem)) (out cwd : String),
      (∀ items, g out = .ok items → tscItemsWF items = true) →
      ∀ i ∈ tscParseOutput g out cwd, issueOrderedB i = true) := by
  refine ⟨?_, ?_, ?_, ?_⟩
  · -- ESLint
    intro s cwd hwf i hi
    by_cases ht : jsTrim s = ""
    · rw [eslintParseOutput, if_pos ht] at hi
      cases hi
    · rw [eslintParseOutput, if_neg ht] at hi
      cases hjson : jsonParse s with
      | error e => rw [hjson] at hi; cases hi
      | ok j =>
        rw [hjson] at hi
        have hi2 : i ∈ issuesOf (eslintIssuesFromJson cwd j) := hi
        cases hdec : decodeESLintResults j with
        | none =>
          have hi3 : i ∈ ([] : List Issue) := by
            unfold eslintIssuesFromJson at hi2
            rw [hdec] at hi2
            exact hi2
          cases hi3
        | some results =>
          have hi3 : i ∈ issuesOf
              (match results.mapM
                  (fun fr => fr.messages.mapM (eslintIssueOfMsg cwd fr.filePath)) with
               | none => (.error "TypeError while traversing ESLint output"
                   : Except String (List Issue))
               | some issueLists => .ok issueLists.flatten) := by
            unfold eslintIssuesFromJson at hi2
            rw [hdec] at hi2
            exact hi2
          have hwf2 : ∀ fr ∈ results, ∀ m ∈ fr.messages, eslintMsgWF m = true := by
            unfold eslintInputWF at hwf
            rw [hjson] at hwf
            simp only [Except.toOption, Option.some_bind, hdec, List.all_eq_true] at hwf
            intro fr hfr m hm
            exact hwf fr hfr m hm
          cases hmapped : results.mapM
              (fun fr => fr.messages.mapM (eslintIssueOfMsg cwd fr.filePath)) with
          | none =>
            have hi4 : i ∈ ([] : List Issue) := by rw [hmapped] at hi3; exact hi3
            cases hi4
          | some issueLists =>
            have hi4 : i ∈ issueLists.flatten := by rw [hmapped] at hi3; exact hi3
            obtain ⟨li, hli, hile⟩ := List.mem_flatten.mp hi4
            obtain ⟨fr, hfr, hfr2⟩ := mapM_option_mem_src hmapped li hli
            obtain ⟨msg, hmsg, hmsg2⟩ := mapM_option_mem_src hfr2 i hile
            exact eslintIssueOfMsg_ordered hmsg2 (hwf2 fr hfr msg hmsg)
  · -- Oxlint
    intro s cwd hwf i hi
    by_cases ht : jsTrim s = ""
    · rw [oxlintParseOutput, if_pos ht] at hi
      cases hi
    · rw [oxlintParseOutput, if_neg ht] at hi
      cases hjson : jsonParse s with
      | error e => rw [hjson] at hi; cases hi
      | ok j =>
        rw [hjson] at hi
        have hi2 : i ∈ issuesOf (oxlintIssuesFromJson cwd j) := hi
        cases hdec : decodeOxlintOutput j with
        | none =>
          have hi3 : i ∈ ([] : List Issue) := by
            unfold oxlintIssuesFromJson at hi2
            rw [hdec] at hi2
            exact hi2
          cases hi3
        | some diags =>
          have hi3 : i ∈ diags.filterMap (fun d =>
              match d.labels with
              | [] => none
              | label :: _ =>
                let filePath := if pathIsAbs d.filename then d.filename
                                else resolvePath cwd d.filename
                some { path := relPath cwd filePath
                       line := label.line
                       column := label.column
                       endLine := label.line
                       endColumn := label.column + label.length
                       severity := if d.severity = some "error" then Severity.error
                                   else Severity.warning
                       ruleId := "oxlint/" ++ d.code
                       message := d.message
                       source := .oxlint
                       fix := none
                       meta := some { docsUrl := d.url, category := none,
                                      fixable := none } }) := by
            unfold oxlintIssuesFromJson at hi2
            rw [hdec] at hi2
            exact hi2
          have hwf2 : ∀ d ∈ diags, ∀ lb ∈ d.labels, oxlintLabelWF lb = true := by
            unfold oxlintInputWF at hwf
            rw [hjson] at hwf
            simp only [Except.toOption, Option.some_bind, hdec, List.all_eq_true] at hwf
            intro d hd lb hlb
            exact hwf d hd lb hlb
          obtain ⟨d, hd, hbody⟩ := List.mem_filterMap.mp hi3
          cases hlabels : d.labels with
          | nil => rw [hlabels] at hbody; cases hbody
          | cons lb lbs =>
            rw [hlabels] at hbody
            have hbody2 : some
                { path := relPath cwd (if pathIsAbs d.filename then d.filename
                                       else resolvePath cwd d.filename)
                  line := lb.line
                  column := lb.column
                  endLine := lb.line
                  endColumn := lb.column + lb.length
                  severity := if d.severity = some "error" then Severity.error
                              else Severity.warning
                  ruleId := "oxlint/" ++ d.code
                  message := d.message
                  source := .oxlint
                  fix := none
                  meta := some { docsUrl := d.url, category := none, fixable := none } }
                = some i := hbody
            have hbody3 := Option.some.inj hbody2
            subst hbody3
            have hlwf := hwf2 d hd lb (by rw [hlabels]; exact List.mem_cons_self _ _)
            simp only [oxlintLabelWF, Bool.and_eq_true, decide_eq_true_eq] at hlwf
            simp only [issueOrderedB, Bool.and_eq_true, Bool.or_eq_true,
              Bool.not_eq_true', decide_eq_true_eq, decide_eq_false_iff_not]
            refine ⟨⟨by omega, by omega⟩, Or.inr (by omega)⟩
  · -- Biome
    intro s cwd hwf i hi
    by_cases ht : jsTrim s = ""
    · rw [biomeParseOutput, if_pos ht] at hi
      cases hi
    · rw [biomeParseOutput, if_neg ht] at hi
      cases hjson : jsonParse s with
      | error e => rw [hjson] at hi; cases hi
      | ok j =>
        rw [hjson] at hi
        have hi2 : i ∈ issuesOf (biomeIssuesFromJson cwd j) := hi
        cases hdec : decodeBiomeOutput j with
        | none =>
          have hi3 : i ∈ ([] : List Issue) := by
            unfold biomeIssuesFromJson at hi2
            rw [hdec] at hi2
            exact hi2
          cases hi3
        | some diags =>
          have hi3 : i ∈ issuesOf (biomeIssuesOf cwd diags) := by
            unfold biomeIssuesFromJson at hi2
            rw [hdec] at hi2
            exact hi2
          have hwf2 : ∀ d ∈ diags, biomeDiagWF d = true := by
            unfold biomeInputWF at hwf
            rw [hjson] at hwf
            simp only [Except.toOption, Option.some_bind, hdec, List.all_eq_true] at hwf
            exact hwf
          cases hout : biomeIssuesOf cwd diags with
          | error e =>
            have hi4 : i ∈ ([] : List Issue) := by rw [hout] at hi3; exact hi3
            cases hi4
          | ok issues =>
            have hi4 : i ∈ issues := by rw [hout] at hi3; exact hi3
            exact biomeIssuesOf_ordered cwd diags hwf2 issues hout i hi4
  · -- tsc
    intro g out cwd hwf i hi
    unfold tscParseOutput at hi
    split at hi
    · cases hi
    · cases hg : g out with
      | error e => rw [hg] at hi; cases hi
      | ok items =>
        rw [hg] at hi
        have hiwf := hwf items hg
        rw [tscItemsWF, List.all_eq_true] at hiwf
        have hi2 : i ∈ items.map (fun it =>
            let absPath := if pathIsAbs it.path then it.path else resolvePath cwd it.path
            ({ path := relPath cwd absPath
               line := it.line
               column := it.col
               endLine := it.line
               endColumn := it.col
               severity := if it.sevIsError then Severity.error else Severity.warning
               ruleId := "tsc/" ++ it.errorString
               message := jsTrim it.message
               source := .tsc
               fix := none
               meta := none } : Issue)) := hi
        obtain ⟨it, hit, hmap⟩ := List.mem_map.mp hi2
        have h1 := hiwf it hit
        rw [decide_eq_true_eq] at h1
        subst hmap
        simp only [issueOrderedB, Bool.and_eq_true, Bool.or_eq_true,
          Bool.not_eq_true', decide_eq_true_eq, decide_eq_false_iff_not]
        refine ⟨⟨by omega, by omega⟩, Or.inr (by omega)⟩

/-- Witness for `parser_issue_bounds_amended`: a well-formed ESLint
payload yields an ordered Issue. -/
theorem parser_issue_bounds_amended_witness :
    issueOrderedB
      { path := "a.ts", line := 2, column := 3, endLine := 2, endColumn := 5,
        severity := .error, ruleId := "eslint/r", message := "m",
        source := .eslint, fix := none, meta := none } = true := by
  have h := parser_issue_bounds_amended.1
    "[\x7b\"filePath\":\"/p/a.ts\",\"messages\":[\x7b\"ruleId\":\"r\",\"severity\":2,\"message\":\"m\",\"line\":2,\"column\":3,\"endLine\":2,\"endColumn\":5\x7d]\x7d]"
    "/p" (by rfl)
  exact h _ (by
    rw [show issuesOf (eslintParseOutput
      "[\x7b\"filePath\":\"/p/a.ts\",\"messages\":[\x7b\"ruleId\":\"r\",\"severity\":2,\"message\":\"m\",\"line\":2,\"column\":3,\"endLine\":2,\"endColumn\":5\x7d]\x7d]"
      "/p")
      = [{ path := "a.ts", line := 2, column := 3, endLine := 2, endColumn := 5,
           severity := .error, ruleId := "eslint/r", message := "m",
           source := .eslint, fix := none, meta := none }] from rfl]
    exact List.mem_singleton.mpr rfl)

end Lintmesh
